import Mathlib

/-!
Verification of the hymn-lyrics extraction and normalization pipeline of the
`liturgi` repository (files `src/kidung/kjpkjnkb.py` and
`src/kidung/get_nkb_24.py`), as a shallow embedding.

Strings are modelled as `List Char`; machine text operations (`str.strip`,
`str.replace`, `str.split`, `re.sub`, ...) are translated into structurally
recursive Lean functions over character lists.
-/

namespace Kidung

/-! ## Character classes

`isPySpace` models the set of characters that CPython's `str.strip()` (and the
`re` module's whitespace class for `str` patterns) treats as whitespace: the
ASCII whitespace characters, the C1 separators, and the Unicode space
characters. -/

def isPySpace (c : Char) : Bool :=
  c = ' ' || c = '\t' || c = '\n' || c = '\x0b' || c = '\x0c' || c = '\r' ||
  c = '\x1c' || c = '\x1d' || c = '\x1e' || c = '\x1f' || c = '\u0085' ||
  c = '\u00A0' || c = '\u1680' || c = '\u2000' || c = '\u2001' || c = '\u2002' ||
  c = '\u2003' || c = '\u2004' || c = '\u2005' || c = '\u2006' || c = '\u2007' ||
  c = '\u2008' || c = '\u2009' || c = '\u200A' || c = '\u2028' || c = '\u2029' ||
  c = '\u202F' || c = '\u205F' || c = '\u3000'

/-- ASCII lower-casing, modelling `str.lower()` on the characters relevant to
the marker search `"no such song" in html.lower()` (the needle is ASCII). -/
def asciiLower (c : Char) : Char :=
  if 'A' ≤ c ∧ c ≤ 'Z' then Char.ofNat (c.toNat + 32) else c

/-- ASCII upper-casing, modelling `str.upper()` on the songbook codes
(`KJ`, `PKJ`, `NKB` — all ASCII). -/
def asciiUpper (c : Char) : Char :=
  if 'a' ≤ c ∧ c ≤ 'z' then Char.ofNat (c.toNat - 32) else c

/-- ASCII decimal digit, modelling `re`'s `\d` on the pages' ASCII numerals. -/
def isDigitChar (c : Char) : Bool := '0' ≤ c && c ≤ '9'

/-! ## Text normalizer

`normalize` in `get_nkb_24.py` (lines 92-100); `normalize_preserve_newlines`
in `kjpkjnkb.py` (lines 147-155) has the identical body. -/

/-- The `PUNCT_MAP` table: each key and value is a single character and no
value is again a key, so the chain of `str.replace` calls is the same as one
character-wise map. -/
def punctMap (c : Char) : Char :=
  if c = '\u2018' then '\x27'
  else if c = '\u2019' then '\x27'
  else if c = '\u201C' then '"'
  else if c = '\u201D' then '"'
  else if c = '\u2013' then '-'
  else if c = '\u2014' then '-'
  else if c = '\u00A0' then ' '
  else c

/-- `s.replace("\r\n", "\n")`: one left-to-right non-overlapping pass. -/
def replaceCRLF : List Char → List Char
  | [] => []
  | [c] => [c]
  | c1 :: c2 :: rest =>
    if c1 = '\r' ∧ c2 = '\n' then '\n' :: replaceCRLF rest
    else c1 :: replaceCRLF (c2 :: rest)

/-- `s.replace("\r", "\n")`: a single-character replace is a map. -/
def replaceCR (l : List Char) : List Char :=
  l.map (fun c => if c = '\r' then '\n' else c)

/-- `s.split("\n")` on a character list; `splitNl [] = [[]]` as in Python. -/
def splitNl : List Char → List (List Char)
  | [] => [[]]
  | c :: rest =>
    if c = '\n' then [] :: splitNl rest
    else
      match splitNl rest with
      | [] => [[c]]
      | l :: ls => (c :: l) :: ls

/-- `"\n".join(lines)`. -/
def joinNl : List (List Char) → List Char
  | [] => []
  | [l] => l
  | l :: ls => l ++ '\n' :: joinNl ls

/-- `str.strip()`: drop leading and trailing Python whitespace
(`List.rdropWhile p l = (l.reverse.dropWhile p).reverse` is Mathlib's
drop-from-the-right). -/
def pystrip (l : List Char) : List Char :=
  (l.dropWhile isPySpace).rdropWhile isPySpace

/-- Worker for `re.sub(r"\n{3,}", "\n\n", s)`: `n` counts the pending run of
newline characters already consumed; a maximal run of `k` newlines is emitted
as `min k 2` newlines, which is the substitution's effect (runs of one or two
newlines are untouched, runs of three or more become exactly two). -/
def collapseAux : Nat → List Char → List Char
  | n, [] => List.replicate (min n 2) '\n'
  | n, c :: rest =>
    if c = '\n' then collapseAux (n + 1) rest
    else List.replicate (min n 2) '\n' ++ c :: collapseAux 0 rest

/-- `re.sub(r"\n{3,}", "\n\n", s)`. -/
def collapseNl (l : List Char) : List Char := collapseAux 0 l

/-- Body of `normalize` on a non-`None` string (`get_nkb_24.py` lines 95-100,
identically `normalize_preserve_newlines` in `kjpkjnkb.py` lines 150-155):
punctuation table, newline unification, per-line strip, blank-line collapse,
outer strip. -/
def normalize_str (s : List Char) : List Char :=
  pystrip (collapseNl (joinNl (((splitNl (replaceCR (replaceCRLF
    (s.map punctMap)))).map pystrip))))

/-- `normalize(s)` / `normalize_preserve_newlines(s)` including the
`if s is None: return None` guard. -/
def normalize : Option (List Char) → Option (List Char)
  | none => none
  | some s => some (normalize_str s)

example : normalize_str " a  \n\n\n\n b ".data = "a\n\nb".data := by decide

example : normalize_str "‘x’ \r\n y".data = "'x'\ny".data := by decide

/-! ## Lemmas: split and join on newlines -/

theorem splitNl_ne_nil (l : List Char) : splitNl l ≠ [] := by
  cases l with
  | nil => simp [splitNl]
  | cons c rest =>
    simp only [splitNl]
    split
    · simp
    · split <;> simp

theorem splitNl_nl (rest : List Char) : splitNl ('\n' :: rest) = [] :: splitNl rest := by
  simp [splitNl]

theorem splitNl_cons_ne {c : Char} (hc : c ≠ '\n') (rest : List Char) :
    splitNl (c :: rest) = (c :: (splitNl rest).headI) :: (splitNl rest).tail := by
  obtain ⟨l, ls, h⟩ := List.exists_cons_of_ne_nil (splitNl_ne_nil rest)
  simp [splitNl, hc, h]

theorem joinNl_cons (l : List Char) (ls : List (List Char)) (h : ls ≠ []) :
    joinNl (l :: ls) = l ++ '\n' :: joinNl ls := by
  cases ls with
  | nil => exact absurd rfl h
  | cons a as => rfl

theorem joinNl_splitNl (l : List Char) : joinNl (splitNl l) = l := by
  induction l with
  | nil => rfl
  | cons c rest ih =>
    by_cases hc : c = '\n'
    · subst hc
      rw [splitNl_nl, joinNl_cons _ _ (splitNl_ne_nil rest), ih]
      rfl
    · rw [splitNl_cons_ne hc]
      obtain ⟨a, as, h⟩ := List.exists_cons_of_ne_nil (splitNl_ne_nil rest)
      cases as with
      | nil =>
        rw [h] at ih ⊢
        simpa [joinNl] using congrArg (c :: ·) ih
      | cons b bs =>
        rw [h] at ih ⊢
        simp only [List.headI, List.tail_cons]
        rw [joinNl_cons _ _ (by simp)] at ih ⊢
        simpa using congrArg (c :: ·) ih

theorem headI_mem {α : Type} [Inhabited α] {l : List α} (h : l ≠ []) : l.headI ∈ l := by
  cases l with
  | nil => exact absurd rfl h
  | cons a as => exact List.mem_cons_self _ _

theorem no_nl_of_mem_splitNl {l m : List Char} (hm : m ∈ splitNl l) :
    '\n' ∉ m := by
  induction l generalizing m with
  | nil =>
    simp only [splitNl, List.mem_singleton] at hm
    simp [hm]
  | cons c rest ih =>
    by_cases hc : c = '\n'
    · subst hc; rw [splitNl_nl] at hm
      rcases List.mem_cons.mp hm with hm | hm
      · simp [hm]
      · exact ih hm
    · rw [splitNl_cons_ne hc] at hm
      obtain ⟨a, as, h'⟩ := List.exists_cons_of_ne_nil (splitNl_ne_nil rest)
      rcases List.mem_cons.mp hm with hm | hm
      · subst hm
        intro hcm
        rcases List.mem_cons.mp hcm with h | h
        · exact hc h.symm
        · exact ih (headI_mem (splitNl_ne_nil rest)) h
      · exact ih (List.mem_of_mem_tail hm)

theorem splitNl_no_nl {m : List Char} (hm : '\n' ∉ m) : splitNl m = [m] := by
  induction m with
  | nil => rfl
  | cons c rest ih =>
    have hc : c ≠ '\n' := fun h => hm (h ▸ List.mem_cons_self _ _)
    have hrest : '\n' ∉ rest := fun h => hm (List.mem_cons_of_mem _ h)
    rw [splitNl_cons_ne hc, ih hrest]
    rfl

theorem splitNl_append_nl {m : List Char} (hm : '\n' ∉ m) (w : List Char) :
    splitNl (m ++ '\n' :: w) = m :: splitNl w := by
  induction m with
  | nil => simpa using splitNl_nl w
  | cons c rest ih =>
    have hc : c ≠ '\n' := fun h => hm (h ▸ List.mem_cons_self _ _)
    have hrest : '\n' ∉ rest := fun h => hm (List.mem_cons_of_mem _ h)
    rw [List.cons_append, splitNl_cons_ne hc, ih hrest]
    rfl

theorem splitNl_joinNl {ms : List (List Char)} (hne : ms ≠ [])
    (hnl : ∀ m ∈ ms, '\n' ∉ m) : splitNl (joinNl ms) = ms := by
  induction ms with
  | nil => exact absurd rfl hne
  | cons m rest ih =>
    cases rest with
    | nil => simpa [joinNl] using splitNl_no_nl (hnl m (List.mem_cons_self _ _))
    | cons a as =>
      rw [joinNl_cons _ _ (by simp),
        splitNl_append_nl (hnl m (List.mem_cons_self _ _)),
        ih (by simp) (fun x hx => hnl x (List.mem_cons_of_mem _ hx))]

theorem mem_of_mem_splitNl {l m : List Char} {c : Char}
    (hm : m ∈ splitNl l) (hc : c ∈ m) : c ∈ l := by
  induction l generalizing m with
  | nil =>
    simp only [splitNl, List.mem_singleton] at hm
    subst hm; simp at hc
  | cons a rest ih =>
    by_cases ha : a = '\n'
    · subst ha; rw [splitNl_nl] at hm
      rcases List.mem_cons.mp hm with hm | hm
      · subst hm; simp at hc
      · exact List.mem_cons_of_mem _ (ih hm hc)
    · rw [splitNl_cons_ne ha] at hm
      obtain ⟨b, bs, h'⟩ := List.exists_cons_of_ne_nil (splitNl_ne_nil rest)
      rcases List.mem_cons.mp hm with hm | hm
      · subst hm
        rcases List.mem_cons.mp hc with h | h
        · simp [h]
        · exact List.mem_cons_of_mem _ (ih (headI_mem (splitNl_ne_nil rest)) h)
      · exact List.mem_cons_of_mem _ (ih (List.mem_of_mem_tail hm) hc)

theorem mem_of_mem_joinNl {ms : List (List Char)} {c : Char}
    (hc : c ∈ joinNl ms) : (∃ m ∈ ms, c ∈ m) ∨ c = '\n' := by
  induction ms with
  | nil => simp [joinNl] at hc
  | cons m rest ih =>
    cases rest with
    | nil =>
      simp only [joinNl] at hc
      exact Or.inl ⟨m, List.mem_cons_self _ _, hc⟩
    | cons a as =>
      rw [joinNl_cons _ _ (by simp)] at hc
      rcases List.mem_append.mp hc with h | h
      · exact Or.inl ⟨m, List.mem_cons_self _ _, h⟩
      · rcases List.mem_cons.mp h with h | h
        · exact Or.inr h
        · rcases ih h with ⟨m', hm', hcm'⟩ | h'
          · exact Or.inl ⟨m', List.mem_cons_of_mem _ hm', hcm'⟩
          · exact Or.inr h'

/-! ## Lemmas: pystrip -/

theorem pystrip_sublist (l : List Char) : List.Sublist (pystrip l) l :=
  ((List.rdropWhile_prefix _ _).sublist).trans (List.dropWhile_suffix _).sublist

theorem pystrip_subset {l : List Char} {c : Char} (h : c ∈ pystrip l) : c ∈ l :=
  (pystrip_sublist l).subset h

theorem pystrip_eq_self_iff {m : List Char} :
    pystrip m = m ↔ m.dropWhile isPySpace = m ∧ m.rdropWhile isPySpace = m := by
  constructor
  · intro h
    have h1 := (List.dropWhile_suffix (l := m) isPySpace).length_le
    have h2 := (List.rdropWhile_prefix isPySpace (m.dropWhile isPySpace)).length_le
    rw [pystrip] at h
    have hlen : (m.dropWhile isPySpace).length = m.length := by
      have h3 := congrArg List.length h
      omega
    have hdw : m.dropWhile isPySpace = m :=
      (List.dropWhile_suffix isPySpace).eq_of_length hlen
    rw [hdw] at h
    exact ⟨hdw, h⟩
  · intro h
    rw [pystrip, h.1, h.2]

theorem dropWhile_eq_self_of_prefix {p : Char → Bool} {A B : List Char} (hBA : B <+: A)
    (hA : ∀ (h : A ≠ []), p (A.head h) = false) : B.dropWhile p = B := by
  cases B with
  | nil => rfl
  | cons b bs =>
    obtain ⟨t, ht⟩ := hBA
    subst ht
    have hb : p b = false := by simpa using hA (by simp)
    simp [List.dropWhile_cons, hb]

theorem pystrip_idem (l : List Char) : pystrip (pystrip l) = pystrip l := by
  rw [pystrip_eq_self_iff]
  constructor
  · exact dropWhile_eq_self_of_prefix (List.rdropWhile_prefix _ _)
      (List.head_dropWhile_not isPySpace l)
  · exact List.rdropWhile_idempotent _ _

/-! ## Lemmas: the blank-line collapse

`noTripleAux n l` scans `l` with `n` pending newline characters already seen
and reports whether a run of three consecutive newlines is ever reached;
`noTripleAux 0 l` says `"\n\n\n"` is not a substring of `l`. -/

def noTripleAux : Nat → List Char → Bool
  | _, [] => true
  | n, c :: rest =>
    if c = '\n' then (if 2 ≤ n then false else noTripleAux (n + 1) rest)
    else noTripleAux 0 rest

theorem nta_nil (n : Nat) : noTripleAux n [] = true := rfl

theorem nta_cons_nl (n : Nat) (rest : List Char) :
    noTripleAux n ('\n' :: rest) =
      if 2 ≤ n then false else noTripleAux (n + 1) rest := by
  simp [noTripleAux]

theorem nta_cons_nl_lt {n : Nat} (hn : n < 2) (rest : List Char) :
    noTripleAux n ('\n' :: rest) = noTripleAux (n + 1) rest := by
  rw [nta_cons_nl, if_neg (by omega)]

theorem nta_cons_ne {c : Char} (hc : c ≠ '\n') (n : Nat) (rest : List Char) :
    noTripleAux n (c :: rest) = noTripleAux 0 rest := by
  simp [noTripleAux, hc]

theorem collapseAux_nil (n : Nat) :
    collapseAux n [] = List.replicate (min n 2) '\n' := rfl

theorem collapseAux_cons_nl (n : Nat) (rest : List Char) :
    collapseAux n ('\n' :: rest) = collapseAux (n + 1) rest := by
  simp [collapseAux]

theorem collapseAux_cons_ne {c : Char} (hc : c ≠ '\n') (n : Nat) (rest : List Char) :
    collapseAux n (c :: rest) =
      List.replicate (min n 2) '\n' ++ c :: collapseAux 0 rest := by
  simp [collapseAux, hc]

theorem nta_mono {l : List Char} {m n : Nat} (hmn : m ≤ n)
    (h : noTripleAux n l = true) : noTripleAux m l = true := by
  induction l generalizing m n with
  | nil => rfl
  | cons c rest ih =>
    by_cases hc : c = '\n'
    · subst hc
      rw [nta_cons_nl] at h
      by_cases h2 : 2 ≤ n
      · rw [if_pos h2] at h; exact absurd h (by simp)
      · rw [if_neg h2] at h
        rw [nta_cons_nl_lt (by omega)]
        exact ih (by omega) h
    · rw [nta_cons_ne hc] at h
      rw [nta_cons_ne hc]
      exact h

theorem nta_append_left {xs ys : List Char} {n : Nat}
    (h : noTripleAux n (xs ++ ys) = true) : noTripleAux n xs = true := by
  induction xs generalizing n with
  | nil => rfl
  | cons c rest ih =>
    by_cases hc : c = '\n'
    · subst hc
      rw [List.cons_append, nta_cons_nl] at h
      rw [nta_cons_nl]
      by_cases h2 : 2 ≤ n
      · rw [if_pos h2] at h; exact absurd h (by simp)
      · rw [if_neg h2] at h ⊢; exact ih h
    · rw [List.cons_append, nta_cons_ne hc] at h
      rw [nta_cons_ne hc]
      exact ih h

theorem nta_step {c : Char} {rest : List Char} {n : Nat}
    (h : noTripleAux n (c :: rest) = true) : noTripleAux 0 rest = true := by
  by_cases hc : c = '\n'
  · subst hc
    rw [nta_cons_nl] at h
    by_cases h2 : 2 ≤ n
    · rw [if_pos h2] at h; exact absurd h (by simp)
    · rw [if_neg h2] at h; exact nta_mono (Nat.zero_le _) h
  · rwa [nta_cons_ne hc] at h

theorem nta_suffix {l s : List Char} {n : Nat} (h : noTripleAux n l = true)
    (hs : s <:+ l) : noTripleAux 0 s = true := by
  obtain ⟨t, ht⟩ := hs
  subst ht
  induction t generalizing n with
  | nil => exact nta_mono (Nat.zero_le _) h
  | cons c rest ih => exact ih (nta_step h)

theorem nta_replicate_append {m k : Nat} (hk : m + k ≤ 2) (w : List Char) :
    noTripleAux m (List.replicate k '\n' ++ w) = noTripleAux (m + k) w := by
  induction k generalizing m with
  | zero => simp
  | succ k ih =>
    rw [List.replicate_succ, List.cons_append, nta_cons_nl_lt (by omega),
      ih (by omega)]
    congr 1
    omega

theorem nta_replicate {k : Nat} (hk : k ≤ 2) :
    noTripleAux 0 (List.replicate k '\n') = true := by
  interval_cases k <;> decide

theorem nta_collapseAux (l : List Char) :
    ∀ n, noTripleAux 0 (collapseAux n l) = true := by
  induction l with
  | nil =>
    intro n
    rw [collapseAux_nil]
    exact nta_replicate (by omega)
  | cons c rest ih =>
    intro n
    by_cases hc : c = '\n'
    · subst hc; rw [collapseAux_cons_nl]; exact ih (n + 1)
    · rw [collapseAux_cons_ne hc,
        nta_replicate_append (m := 0) (by omega), nta_cons_ne hc]
      exact ih 0

theorem collapseAux_fix {l : List Char} : ∀ {n : Nat}, n ≤ 2 →
    noTripleAux n l = true → collapseAux n l = List.replicate n '\n' ++ l := by
  induction l with
  | nil =>
    intro n hn _
    rw [collapseAux_nil, Nat.min_eq_left hn, List.append_nil]
  | cons c rest ih =>
    intro n hn h
    by_cases hc : c = '\n'
    · subst hc
      rw [nta_cons_nl] at h
      by_cases h2 : 2 ≤ n
      · rw [if_pos h2] at h; exact absurd h (by simp)
      · rw [if_neg h2] at h
        rw [collapseAux_cons_nl, ih (by omega) h, List.replicate_succ' n '\n']
        simp
    · rw [nta_cons_ne hc] at h
      rw [collapseAux_cons_ne hc, ih (by omega) h, Nat.min_eq_left hn]
      simp

theorem collapseNl_fix {l : List Char} (h : noTripleAux 0 l = true) :
    collapseNl l = l := by
  simpa [collapseNl] using collapseAux_fix (Nat.zero_le 2) h

theorem mem_collapseAux {l : List Char} {c : Char} :
    ∀ {n : Nat}, c ∈ collapseAux n l → c ∈ l ∨ c = '\n' := by
  induction l with
  | nil =>
    intro n h
    rw [collapseAux_nil] at h
    exact Or.inr (List.eq_of_mem_replicate h)
  | cons a rest ih =>
    intro n h
    by_cases ha : a = '\n'
    · subst ha
      rw [collapseAux_cons_nl] at h
      rcases ih h with h' | h'
      · exact Or.inl (List.mem_cons_of_mem _ h')
      · exact Or.inr h'
    · rw [collapseAux_cons_ne ha] at h
      rcases List.mem_append.mp h with h' | h'
      · exact Or.inr (List.eq_of_mem_replicate h')
      · rcases List.mem_cons.mp h' with h'' | h''
        · exact Or.inl (by simp [h''])
        · rcases ih h'' with h3 | h3
          · exact Or.inl (List.mem_cons_of_mem _ h3)
          · exact Or.inr h3

theorem nta_false_triple {l : List Char} : ∀ {n : Nat}, noTripleAux n l = false →
    ['\n', '\n', '\n'] <:+: (List.replicate n '\n' ++ l) := by
  induction l with
  | nil => intro n h; rw [nta_nil] at h; exact absurd h (by simp)
  | cons c rest ih =>
    intro n h
    by_cases hc : c = '\n'
    · subst hc
      rw [nta_cons_nl] at h
      by_cases h2 : 2 ≤ n
      · refine ⟨[], List.replicate (n - 2) '\n' ++ rest, ?_⟩
        rw [List.nil_append]
        have h4 : List.replicate n '\n' ++ '\n' :: rest =
            List.replicate (n + 1) '\n' ++ rest := by
          rw [List.replicate_succ' n '\n']; simp
        rw [h4, show n + 1 = 3 + (n - 2) by omega, List.replicate_add]
        simp [List.replicate]
      · rw [if_neg h2] at h
        have h3 := ih h
        rwa [List.replicate_succ' n '\n', List.append_assoc] at h3
    · rw [nta_cons_ne hc] at h
      have h3 := ih (n := 0) h
      rw [List.replicate_zero, List.nil_append] at h3
      exact h3.trans ⟨List.replicate n '\n' ++ [c], [], by simp⟩

theorem nta_iff_no_triple (y : List Char) :
    noTripleAux 0 y = true ↔ ¬ (['\n', '\n', '\n'] <:+: y) := by
  constructor
  · intro h hinf
    obtain ⟨s, t, hst⟩ := hinf
    have h1 : noTripleAux 0 (['\n', '\n', '\n'] ++ t) = true :=
      nta_suffix h ⟨s, by rw [← hst]; simp⟩
    simp [noTripleAux] at h1
  · intro h
    by_contra h'
    have h0 : noTripleAux 0 y = false := by
      cases h1 : noTripleAux 0 y
      · rfl
      · exact absurd h1 h'
    have h3 := nta_false_triple h0
    rw [List.replicate_zero, List.nil_append] at h3
    exact h h3

/-! ## Lemmas: lines of the collapsed string -/

theorem splitNl_replicate_append (k : Nat) (w : List Char) :
    splitNl (List.replicate k '\n' ++ w) = List.replicate k [] ++ splitNl w := by
  induction k with
  | zero => simp
  | succ k ih =>
    rw [List.replicate_succ, List.cons_append, splitNl_nl, ih,
      List.replicate_succ, List.cons_append]

theorem headI_splitNl_collapseAux_pos {l : List Char} :
    ∀ {n : Nat}, 1 ≤ n → (splitNl (collapseAux n l)).headI = [] := by
  induction l with
  | nil =>
    intro n hn
    rw [collapseAux_nil]
    have h1 : min n 2 = (min n 2 - 1) + 1 := by omega
    rw [h1, List.replicate_succ, splitNl_nl]
    rfl
  | cons c rest ih =>
    intro n hn
    by_cases hc : c = '\n'
    · subst hc; rw [collapseAux_cons_nl]; exact ih (by omega)
    · rw [collapseAux_cons_ne hc]
      have h1 : min n 2 = (min n 2 - 1) + 1 := by omega
      rw [h1, List.replicate_succ, List.cons_append, splitNl_nl]
      rfl

theorem headI_splitNl_collapseAux_zero (l : List Char) :
    (splitNl (collapseAux 0 l)).headI = (splitNl l).headI := by
  induction l with
  | nil => rfl
  | cons c rest ih =>
    by_cases hc : c = '\n'
    · subst hc
      rw [collapseAux_cons_nl, splitNl_nl, headI_splitNl_collapseAux_pos (by omega)]
      rfl
    · rw [collapseAux_cons_ne hc]
      simp only [Nat.zero_min, List.replicate_zero, List.nil_append]
      rw [splitNl_cons_ne hc, splitNl_cons_ne hc]
      simp only [List.headI_cons]
      rw [ih]

theorem tail_splitNl_collapseAux {l m : List Char} :
    ∀ {n : Nat}, m ∈ (splitNl (collapseAux n l)).tail →
      m = [] ∨ m ∈ (splitNl l).tail ∨ (1 ≤ n ∧ m = (splitNl l).headI) := by
  induction l with
  | nil =>
    intro n hm
    rw [collapseAux_nil] at hm
    left
    have h1 : splitNl (List.replicate (min n 2) '\n') =
        List.replicate (min n 2) [] ++ [[]] := by
      simpa using splitNl_replicate_append (min n 2) []
    rw [h1] at hm
    have h2 := List.mem_of_mem_tail hm
    rcases List.mem_append.mp h2 with h | h
    · exact List.eq_of_mem_replicate h
    · simpa using h
  | cons c rest ih =>
    intro n hm
    by_cases hc : c = '\n'
    · subst hc
      rw [collapseAux_cons_nl] at hm
      rw [splitNl_nl]
      simp only [List.tail_cons, List.headI]
      rcases ih hm with h | h | ⟨_, h⟩
      · exact Or.inl h
      · exact Or.inr (Or.inl (List.mem_of_mem_tail h))
      · exact Or.inr (Or.inl (h ▸ headI_mem (splitNl_ne_nil rest)))
    · rw [collapseAux_cons_ne hc] at hm
      cases n with
      | zero =>
        simp only [Nat.zero_min, List.replicate_zero, List.nil_append] at hm
        rw [splitNl_cons_ne hc] at hm
        simp only [List.tail_cons] at hm
        rcases ih hm with h | h | ⟨h0, _⟩
        · exact Or.inl h
        · rw [splitNl_cons_ne hc]
          exact Or.inr (Or.inl (by simpa using h))
        · omega
      | succ n' =>
        have hk1 : min (n' + 1) 2 = (min (n' + 1) 2 - 1) + 1 := by omega
        rw [hk1, List.replicate_succ, List.cons_append, splitNl_nl] at hm
        simp only [List.tail_cons] at hm
        rw [splitNl_replicate_append, splitNl_cons_ne hc] at hm
        rcases List.mem_append.mp hm with h | h
        · exact Or.inl (List.eq_of_mem_replicate h)
        · rcases List.mem_cons.mp h with h | h
          · refine Or.inr (Or.inr ⟨by omega, ?_⟩)
            rw [splitNl_cons_ne hc]
            simp only [List.headI_cons]
            rw [h, headI_splitNl_collapseAux_zero]
          · rcases ih (n := 0) h with h' | h' | ⟨h0, _⟩
            · exact Or.inl h'
            · rw [splitNl_cons_ne hc]
              exact Or.inr (Or.inl (by simpa using h'))
            · omega

theorem mem_splitNl_collapseNl {z m : List Char} (hm : m ∈ splitNl (collapseNl z)) :
    m = [] ∨ m ∈ splitNl z := by
  rw [collapseNl] at hm
  obtain ⟨a, as, h⟩ := List.exists_cons_of_ne_nil (splitNl_ne_nil (collapseAux 0 z))
  rw [h] at hm
  rcases List.mem_cons.mp hm with hm' | hm'
  · right
    have h2 : (splitNl (collapseAux 0 z)).headI = (splitNl z).headI :=
      headI_splitNl_collapseAux_zero z
    rw [h] at h2
    simp only [List.headI] at h2
    rw [hm', h2]
    exact headI_mem (splitNl_ne_nil z)
  · have hm2 : m ∈ (splitNl (collapseAux 0 z)).tail := by
      rw [h]; simpa using hm'
    rcases tail_splitNl_collapseAux hm2 with h' | h' | ⟨h0, _⟩
    · exact Or.inl h'
    · exact Or.inr (List.mem_of_mem_tail h')
    · omega

/-! ## Lemmas: lines of the outer strip -/

theorem splitNl_concat_nl (w : List Char) :
    splitNl (w ++ ['\n']) = splitNl w ++ [[]] := by
  induction w with
  | nil => rfl
  | cons c rest ih =>
    by_cases hc : c = '\n'
    · subst hc
      rw [List.cons_append, splitNl_nl, splitNl_nl, ih]
      rfl
    · rw [List.cons_append, splitNl_cons_ne hc, splitNl_cons_ne hc, ih]
      obtain ⟨a, as, h⟩ := List.exists_cons_of_ne_nil (splitNl_ne_nil rest)
      rw [h]
      simp

theorem splitNl_concat_ne {x : Char} (hx : x ≠ '\n') (w : List Char)
    {ls : List (List Char)} {m : List Char} (h : splitNl w = ls ++ [m]) :
    splitNl (w ++ [x]) = ls ++ [m ++ [x]] := by
  induction w generalizing ls m with
  | nil =>
    have hls : ls = [] ∧ m = [] := by
      cases ls with
      | nil => simpa [splitNl] using h.symm
      | cons a as =>
        exfalso
        have hlen := congrArg List.length h
        simp [splitNl] at hlen
    obtain ⟨h1, h2⟩ := hls
    subst h1; subst h2
    simp [splitNl, hx]
  | cons c rest ih =>
    by_cases hc : c = '\n'
    · subst hc
      rw [splitNl_nl] at h
      cases ls with
      | nil =>
        exfalso
        simp only [List.nil_append] at h
        have h2 := congrArg List.length h
        simp only [List.length_cons, List.length_singleton, List.length_nil] at h2
        have h3 : (splitNl rest).length = 0 := by omega
        exact splitNl_ne_nil rest (List.length_eq_zero.mp h3)
      | cons a as =>
        simp only [List.cons_append, List.cons.injEq] at h
        obtain ⟨ha, hrest⟩ := h
        rw [List.cons_append, splitNl_nl, ih hrest, ← ha]
        rfl
    · obtain ⟨b, bs, hb⟩ := List.exists_cons_of_ne_nil (splitNl_ne_nil rest)
      rw [splitNl_cons_ne hc, hb] at h
      simp only [List.headI, List.tail_cons] at h
      cases ls with
      | nil =>
        simp only [List.nil_append, List.cons.injEq] at h
        obtain ⟨hm, hbs⟩ := h
        have hrest : splitNl rest = [] ++ [b] := by simp [hb, hbs]
        rw [List.cons_append, splitNl_cons_ne hc, ih hrest]
        simp [← hm]
      | cons a as =>
        simp only [List.cons_append, List.cons.injEq] at h
        obtain ⟨ha, hbs⟩ := h
        have hrest : splitNl rest = (b :: as) ++ [m] := by rw [hb, hbs]; rfl
        rw [List.cons_append, splitNl_cons_ne hc, ih hrest]
        simp [← ha]

theorem mem_splitNl_dropWhile {z : List Char}
    (hz : ∀ m ∈ splitNl z, pystrip m = m) :
    ∀ m ∈ splitNl (z.dropWhile isPySpace), m ∈ splitNl z := by
  induction z with
  | nil => intro m hm; simpa [List.dropWhile] using hm
  | cons c rest ih =>
    by_cases hp : isPySpace c
    · by_cases hc : c = '\n'
      · subst hc
        rw [List.dropWhile_cons, if_pos hp]
        intro m hm
        rw [splitNl_nl]
        have hz' : ∀ m' ∈ splitNl rest, pystrip m' = m' := by
          intro m' hm'
          exact hz m' (by rw [splitNl_nl]; exact List.mem_cons_of_mem _ hm')
        exact List.mem_cons_of_mem _ (ih hz' m hm)
      · exfalso
        have hline := hz _ (by
          rw [splitNl_cons_ne hc]; exact List.mem_cons_self _ _)
        have hdw := (pystrip_eq_self_iff.mp hline).1
        rw [List.dropWhile_cons, if_pos hp] at hdw
        have hlen := congrArg List.length hdw
        have hle :=
          (List.dropWhile_suffix (l := (splitNl rest).headI) isPySpace).length_le
        simp only [List.length_cons] at hlen
        omega
    · rw [List.dropWhile_cons, if_neg hp]
      intro m hm; exact hm

theorem mem_splitNl_rdropWhile {z : List Char}
    (hz : ∀ m ∈ splitNl z, pystrip m = m) :
    ∀ m ∈ splitNl (z.rdropWhile isPySpace), m ∈ splitNl z := by
  induction z using List.reverseRecOn with
  | nil => intro m hm; simpa [List.rdropWhile_nil] using hm
  | append_singleton w x ih =>
    by_cases hp : isPySpace x
    · by_cases hx : x = '\n'
      · subst hx
        rw [List.rdropWhile_concat_pos _ _ _ hp]
        intro m hm
        rw [splitNl_concat_nl]
        have hz' : ∀ m' ∈ splitNl w, pystrip m' = m' := by
          intro m' hm'
          exact hz m' (by rw [splitNl_concat_nl]; exact List.mem_append_left _ hm')
        exact List.mem_append_left _ (ih hz' m hm)
      · exfalso
        obtain ⟨ls, m0, hl⟩ :=
          (List.eq_nil_or_concat' (splitNl w)).resolve_left (splitNl_ne_nil w)
        have hsplit : splitNl (w ++ [x]) = ls ++ [m0 ++ [x]] :=
          splitNl_concat_ne hx w hl
        have hline := hz (m0 ++ [x]) (by rw [hsplit]; simp)
        have hrd := (pystrip_eq_self_iff.mp hline).2
        rw [List.rdropWhile_concat_pos _ _ _ hp] at hrd
        have hlen := congrArg List.length hrd
        have hle := (List.rdropWhile_prefix isPySpace m0).length_le
        simp only [List.length_append, List.length_singleton] at hlen
        omega
    · rw [List.rdropWhile_concat_neg _ _ _ hp]
      intro m hm; exact hm

/-! ## Lemmas: punctuation map and newline unification -/

theorem punctMap_cases (c : Char) :
    punctMap c = c ∨ punctMap c ∈ (['\x27', '"', '-', ' '] : List Char) := by
  unfold punctMap
  split_ifs <;> simp

theorem punctMap_fix_out {c : Char} (h : c ∈ (['\x27', '"', '-', ' '] : List Char)) :
    punctMap c = c := by
  fin_cases h <;> decide

theorem punctMap_idem (c : Char) : punctMap (punctMap c) = punctMap c := by
  rcases punctMap_cases c with h | h
  · rw [h]; exact h
  · exact punctMap_fix_out h

theorem map_id_of_mem {α : Type} {f : α → α} {l : List α} (h : ∀ a ∈ l, f a = a) :
    l.map f = l := by
  induction l with
  | nil => rfl
  | cons a rest ih =>
    rw [List.map_cons, h a (List.mem_cons_self _ _),
      ih (fun b hb => h b (List.mem_cons_of_mem _ hb))]

theorem replaceCRLF_cons_ne {c : Char} (hc : c ≠ '\r') (rest : List Char) :
    replaceCRLF (c :: rest) = c :: replaceCRLF rest := by
  cases rest with
  | nil => rfl
  | cons c2 r2 =>
    have h : ¬(c = '\r' ∧ c2 = '\n') := fun h => hc h.1
    simp [replaceCRLF, h]

theorem replaceCRLF_fix {l : List Char} (h : '\r' ∉ l) : replaceCRLF l = l := by
  induction l with
  | nil => rfl
  | cons c rest ih =>
    have hc : c ≠ '\r' := fun hh => h (hh ▸ List.mem_cons_self _ _)
    rw [replaceCRLF_cons_ne hc, ih (fun hh => h (List.mem_cons_of_mem _ hh))]

theorem mem_replaceCRLF {c : Char} : ∀ {l : List Char}, c ∈ replaceCRLF l →
    c ∈ l ∨ c = '\n' := by
  intro l
  induction l using replaceCRLF.induct with
  | case1 => intro h; exact absurd h (by simp [replaceCRLF])
  | case2 c1 => intro h; exact Or.inl (by simpa [replaceCRLF] using h)
  | case3 c1 c2 rest hif ih =>
    intro h
    rw [replaceCRLF, if_pos hif] at h
    rcases List.mem_cons.mp h with h | h
    · exact Or.inr h
    · rcases ih h with h' | h'
      · exact Or.inl (by simp [h'])
      · exact Or.inr h'
  | case4 c1 c2 rest hif ih =>
    intro h
    rw [replaceCRLF, if_neg hif] at h
    rcases List.mem_cons.mp h with h | h
    · exact Or.inl (by simp [h])
    · rcases ih h with h' | h'
      · exact Or.inl (List.mem_cons_of_mem _ h')
      · exact Or.inr h'

theorem mem_replaceCR {c : Char} {l : List Char} (h : c ∈ replaceCR l) :
    c = '\n' ∨ (c ∈ l ∧ c ≠ '\r') := by
  rw [replaceCR] at h
  obtain ⟨a, ha, hfa⟩ := List.mem_map.mp h
  by_cases hr : a = '\r'
  · rw [if_pos hr] at hfa; exact Or.inl hfa.symm
  · rw [if_neg hr] at hfa; exact Or.inr ⟨hfa ▸ ha, hfa ▸ hr⟩

theorem replaceCR_fix {l : List Char} (h : '\r' ∉ l) : replaceCR l = l := by
  rw [replaceCR]
  refine map_id_of_mem (fun a ha => ?_)
  have hr : a ≠ '\r' := fun hh => h (by rw [← hh]; exact ha)
  rw [if_neg hr]

/-! ## The normalizer's output is a fixed point -/

/-- The characters of a normalized string: fixed under the punctuation table
and free of carriage returns. -/
def CharsGood (l : List Char) : Prop := ∀ c ∈ l, punctMap c = c ∧ c ≠ '\r'

theorem nl_good : punctMap '\n' = '\n' ∧ '\n' ≠ '\r' := by decide

theorem normalize_str_good (x : List Char) :
    CharsGood (normalize_str x)
    ∧ (∀ m ∈ splitNl (normalize_str x), pystrip m = m)
    ∧ noTripleAux 0 (normalize_str x) = true
    ∧ pystrip (normalize_str x) = normalize_str x := by
  have hx3 : CharsGood (replaceCR (replaceCRLF (x.map punctMap))) := by
    intro c hc
    rcases mem_replaceCR hc with h | ⟨h, hr⟩
    · exact h ▸ nl_good
    · rcases mem_replaceCRLF h with h' | h'
      · obtain ⟨a, _, hfa⟩ := List.mem_map.mp h'
        exact ⟨hfa ▸ punctMap_idem a, hr⟩
      · exact ⟨h' ▸ nl_good.1, hr⟩
  set x3 := replaceCR (replaceCRLF (x.map punctMap)) with hx3def
  set ms := (splitNl x3).map pystrip with hmsdef
  set z := joinNl ms with hzdef
  set z' := collapseNl z with hz'def
  have hyd : normalize_str x = pystrip z' := rfl
  have hms_ne : ms ≠ [] := by
    rw [hmsdef]
    simp only [ne_eq, List.map_eq_nil_iff]
    exact splitNl_ne_nil x3
  have hms_nl : ∀ m ∈ ms, '\n' ∉ m := by
    intro m hm
    rw [hmsdef] at hm
    obtain ⟨m', hm', hmp⟩ := List.mem_map.mp hm
    exact fun hc => no_nl_of_mem_splitNl hm' (pystrip_subset (hmp ▸ hc))
  have hz_lines : splitNl z = ms := splitNl_joinNl hms_ne hms_nl
  have hz_stripped : ∀ m ∈ splitNl z, pystrip m = m := by
    intro m hm
    rw [hz_lines, hmsdef] at hm
    obtain ⟨m', _, hmp⟩ := List.mem_map.mp hm
    exact hmp ▸ pystrip_idem m'
  have hz'_stripped : ∀ m ∈ splitNl z', pystrip m = m := by
    intro m hm
    rcases mem_splitNl_collapseNl hm with h | h
    · rw [h]; rfl
    · exact hz_stripped m h
  have hdw_stripped : ∀ m ∈ splitNl (z'.dropWhile isPySpace), pystrip m = m :=
    fun m hm => hz'_stripped m (mem_splitNl_dropWhile hz'_stripped m hm)
  have hy_stripped : ∀ m ∈ splitNl (normalize_str x), pystrip m = m := by
    intro m hm
    rw [hyd, pystrip] at hm
    exact hdw_stripped m (mem_splitNl_rdropWhile hdw_stripped m hm)
  have hz'_nta : noTripleAux 0 z' = true := nta_collapseAux z 0
  have hy_nta : noTripleAux 0 (normalize_str x) = true := by
    rw [hyd, pystrip]
    have hdw : noTripleAux 0 (z'.dropWhile isPySpace) = true :=
      nta_suffix hz'_nta (List.dropWhile_suffix _)
    obtain ⟨t, ht⟩ := List.rdropWhile_prefix isPySpace (z'.dropWhile isPySpace)
    exact nta_append_left (n := 0) (ht ▸ hdw)
  have hy_good : CharsGood (normalize_str x) := by
    intro c hc
    rw [hyd] at hc
    rcases mem_collapseAux (pystrip_subset hc) with h | h
    · rcases mem_of_mem_joinNl h with ⟨m, hm, hcm⟩ | h'
      · rw [hmsdef] at hm
        obtain ⟨m', hm', hmp⟩ := List.mem_map.mp hm
        exact hx3 c (mem_of_mem_splitNl hm' (pystrip_subset (hmp ▸ hcm)))
      · exact h' ▸ nl_good
    · exact h ▸ nl_good
  exact ⟨hy_good, hy_stripped, hy_nta, by rw [hyd]; exact pystrip_idem z'⟩

theorem normalize_str_fix {y : List Char} (hg : CharsGood y)
    (hl : ∀ m ∈ splitNl y, pystrip m = m)
    (ht : noTripleAux 0 y = true) (hs : pystrip y = y) :
    normalize_str y = y := by
  have hcr : '\r' ∉ y := fun h => (hg '\r' h).2 rfl
  have h1 : y.map punctMap = y := map_id_of_mem (fun c hc => (hg c hc).1)
  have h4 : (splitNl y).map pystrip = splitNl y := map_id_of_mem hl
  rw [normalize_str, h1, replaceCRLF_fix hcr, replaceCR_fix hcr, h4,
    joinNl_splitNl, collapseNl_fix ht, hs]

theorem normalize_str_idem (s : List Char) :
    normalize_str (normalize_str s) = normalize_str s := by
  obtain ⟨hg, hl, ht, hs⟩ := normalize_str_good s
  exact normalize_str_fix hg hl ht hs

theorem collapseAux_replicate (k : Nat) (w : List Char) :
    ∀ n, collapseAux n (List.replicate k '\n' ++ w) = collapseAux (n + k) w := by
  induction k with
  | zero => intro n; simp
  | succ k ih =>
    intro n
    rw [List.replicate_succ, List.cons_append, collapseAux_cons_nl, ih (n + 1)]
    congr 1
    omega

theorem normalize_str_collapse_run (k : Nat) (hk : 3 ≤ k) :
    normalize_str ('a' :: (List.replicate k '\n' ++ ['b'])) = ['a', '\n', '\n', 'b'] := by
  obtain ⟨j, rfl⟩ : ∃ j, k = j + 3 := ⟨k - 3, by omega⟩
  set w := 'a' :: (List.replicate (j + 3) '\n' ++ ['b']) with hw
  have hmap : w.map punctMap = w := map_id_of_mem (by
    intro c hc
    rw [hw] at hc
    rcases List.mem_cons.mp hc with h | h
    · subst h; decide
    · rcases List.mem_append.mp h with h | h
      · rw [List.eq_of_mem_replicate h]; decide
      · rw [List.mem_singleton.mp h]; decide)
  have hcr : '\r' ∉ w := by
    intro hc
    rw [hw] at hc
    rcases List.mem_cons.mp hc with h | h
    · exact absurd h (by decide)
    · rcases List.mem_append.mp h with h | h
      · exact absurd (List.eq_of_mem_replicate h) (by decide)
      · exact absurd (List.mem_singleton.mp h) (by decide)
  have hsplit : splitNl w = ['a'] :: (List.replicate (j + 2) [] ++ [['b']]) := by
    rw [hw, splitNl_cons_ne (by decide), splitNl_replicate_append,
      splitNl_no_nl (by decide)]
    rw [show j + 3 = (j + 2) + 1 from rfl, List.replicate_succ]
    simp
  have hstr : (splitNl w).map pystrip = splitNl w := map_id_of_mem (by
    intro m hm
    rw [hsplit] at hm
    rcases List.mem_cons.mp hm with h | h
    · subst h; decide
    · rcases List.mem_append.mp h with h | h
      · rw [List.eq_of_mem_replicate h]; rfl
      · rw [List.mem_singleton.mp h]; decide)
  have hcoll : collapseNl w = ['a', '\n', '\n', 'b'] := by
    rw [hw, collapseNl, collapseAux_cons_ne (by decide), collapseAux_replicate,
      collapseAux_cons_ne (by decide), collapseAux_nil]
    have h2 : min (0 + (j + 3)) 2 = 2 := by omega
    rw [h2]
    simp [List.replicate]
  rw [normalize_str, hmap, replaceCRLF_fix hcr, replaceCR_fix hcr, hstr,
    joinNl_splitNl, hcoll]
  decide

/-! ## Claim C2 -/

/-- C2: the text normalizer is idempotent — `normalize(normalize(x)) ==
normalize(x)` for every string `x` — and a `None` input yields a `None`
output. -/
theorem normalize_idempotent :
    (∀ s : List Char, normalize_str (normalize_str s) = normalize_str s)
    ∧ (∀ x : Option (List Char), normalize (normalize x) = normalize x)
    ∧ normalize none = none := by
  refine ⟨normalize_str_idem, ?_, rfl⟩
  intro x
  cases x with
  | none => rfl
  | some s => simp [normalize, normalize_str_idem]

/-! ## Claim C8 -/

/-- C8: for every input string the normalizer's output never contains three
consecutive newline characters (so at most two survive, i.e. at most one
blank line), and a run of `k ≥ 3` newlines between two non-blank lines is
collapsed to exactly two newlines (one blank line). -/
theorem normalize_collapses_blank_lines :
    (∀ s : List Char, ¬ (['\n', '\n', '\n'] <:+: normalize_str s))
    ∧ (∀ k : Nat, 3 ≤ k →
        normalize_str ('a' :: (List.replicate k '\n' ++ ['b'])) =
          ['a', '\n', '\n', 'b']) := by
  constructor
  · intro s
    exact (nta_iff_no_triple _).mp (normalize_str_good s).2.2.1
  · exact normalize_str_collapse_run

/-- Witness for C8 at the concrete run length `k = 4`. -/
theorem normalize_collapses_blank_lines_witness :
    normalize_str ('a' :: (List.replicate 4 '\n' ++ ['b'])) = ['a', '\n', '\n', 'b'] :=
  normalize_collapses_blank_lines.2 4 (by norm_num)

/-! ## Title parser

`split_title` from `get_nkb_24.py` (lines 108-128).  The spec (section 4.2 and
design note 9) adopts this variant's dash-or-comma strict separator as the
canonical title parser.  The two regular expressions

  `TITLE_RE_STRICT = ^(KJ|PKJ|NKB)\s+0*(\d+)\s*(?:[- em-dash en-dash]|,)\s+(.*)$` (dashes)
  `TITLE_RE_FUZZY  = (KJ|PKJ|NKB)\s+0*(\d+)\b`

(both `IGNORECASE`) are translated into direct character-list matchers.  For
this pattern shape greedy maximal-munch scanning is equivalent to the regex
engine's backtracking search: the three alternation codes start with distinct
letters, a digit can never serve as a separator or whitespace, and shrinking
a greedy span only moves a mismatching character class boundary onto a
character that cannot match it. -/

/-- `re`'s word character `\w` (ASCII range; the scraped headings carry ASCII
word characters around the digit run). -/
def isWordChar (c : Char) : Bool :=
  ('a' ≤ c && c ≤ 'z') || ('A' ≤ c && c ≤ 'Z') || ('0' ≤ c && c ≤ '9') || c = '_'

/-- Strict/fuzzy separator characters: `-`, em dash, en dash, comma. -/
def isSepChar (c : Char) : Bool :=
  c = '-' || c = '—' || c = '–' || c = ','

/-- Case-insensitive prefix match of one songbook code; returns the matched
characters and the remainder. -/
def matchCodeOne (code t : List Char) : Option (List Char × List Char) :=
  if code.length ≤ t.length ∧ (t.take code.length).map asciiLower = code.map asciiLower
  then some (t.take code.length, t.drop code.length)
  else none

/-- The alternation `(KJ|PKJ|NKB)` tried in source order (at most one branch
can match, as the codes begin with distinct letters). -/
def matchCode (t : List Char) : Option (List Char × List Char) :=
  match matchCodeOne "KJ".data t with
  | some r => some r
  | none =>
    match matchCodeOne "PKJ".data t with
    | some r => some r
    | none => matchCodeOne "NKB".data t

/-- `int()` on a run of ASCII digits (leading zeros contribute nothing). -/
def natOfDigits (ds : List Char) : Nat :=
  ds.foldl (fun n c => n * 10 + (c.toNat - '0'.toNat)) 0

/-- `TITLE_RE_STRICT.match t`: anchored match returning
(code text, number, third group).  The trailing `(.*)$` matches any
newline-free tail, or a tail whose single newline is its final character
(`$` also matches just before a final newline). -/
def match_strict (t : List Char) : Option (List Char × Nat × List Char) :=
  match matchCode t with
  | none => none
  | some (code, r1) =>
    if r1.takeWhile isPySpace = [] then none
    else
      let r2 := r1.dropWhile isPySpace
      let ds := r2.takeWhile isDigitChar
      if ds = [] then none
      else
        match (r2.dropWhile isDigitChar).dropWhile isPySpace with
        | [] => none
        | sep :: r5 =>
          if isSepChar sep then
            if r5.takeWhile isPySpace = [] then none
            else
              let r6 := r5.dropWhile isPySpace
              if '\n' ∉ r6 then some (code, natOfDigits ds, r6)
              else if r6.getLast? = some '\n' ∧ '\n' ∉ r6.dropLast then
                some (code, natOfDigits ds, r6.dropLast)
              else none
          else none

/-- One attempt of `TITLE_RE_FUZZY` anchored at the current position:
code, one-or-more whitespace, digit run, word boundary.  Returns
(code text, number, remainder after the match). -/
def fuzzy_at (t : List Char) : Option (List Char × Nat × List Char) :=
  match matchCode t with
  | none => none
  | some (code, r1) =>
    if r1.takeWhile isPySpace = [] then none
    else
      let r2 := r1.dropWhile isPySpace
      let ds := r2.takeWhile isDigitChar
      if ds = [] then none
      else
        let r3 := r2.dropWhile isDigitChar
        match r3.head? with
        | none => some (code, natOfDigits ds, r3)
        | some c => if isWordChar c then none else some (code, natOfDigits ds, r3)

/-- `TITLE_RE_FUZZY.search t`: leftmost position where `fuzzy_at` succeeds. -/
def match_fuzzy : List Char → Option (List Char × Nat × List Char)
  | [] => none
  | c :: rest =>
    match fuzzy_at (c :: rest) with
    | some r => some r
    | none => match_fuzzy rest

/-- `split_title(raw_title)` from `get_nkb_24.py` lines 108-128: normalize,
try the strict pattern, then the fuzzy pattern (stripping one leading
separator from the remainder), else return the whole normalized title. -/
def split_title (raw : String) : Option String × Option Nat × Option String :=
  let t := normalize_str raw.data
  match match_strict t with
  | some (code, n, g3) =>
    let judul := pystrip g3
    (some ⟨code.map asciiUpper⟩, some n,
      if judul = [] then none else some ⟨judul⟩)
  | none =>
    match match_fuzzy t with
    | some (code, n, r3) =>
      let rest := r3.dropWhile isPySpace
      let rest2 :=
        match rest with
        | [] => rest
        | sep :: r' => if isSepChar sep then r'.dropWhile isPySpace else rest
      (some ⟨code.map asciiUpper⟩, some n,
        if rest2 = [] then none else some ⟨rest2⟩)
    | none => (none, none, if t = [] then none else some ⟨t⟩)

example : split_title "KJ 024 – Tuhan Kasihanilah Kami" =
    (some "KJ", some 24, some "Tuhan Kasihanilah Kami") := by decide

example : split_title "Random Untitled Song" =
    (none, none, some "Random Untitled Song") := by decide

example : split_title "NKB 7b" = (none, none, some "NKB 7b") := by decide

example : split_title "Lagu NKB 12: Halo" = (some "NKB", some 12, some ": Halo") := by decide

example : split_title "pkj 005-Judul" = (some "PKJ", some 5, some "Judul") := by decide

example : split_title "NKB 12-3 - x" = (some "NKB", some 12, some "3 - x") := by decide

example : split_title "KJ 1 - a\nb" = (some "KJ", some 1, some "a\nb") := by decide

example : split_title "" = (none, none, none) := by decide

/-! ## Claim C5 -/

/-- C5: the strict title pattern accepts a comma as well as a dash as the
separator: `split_title("NKB 024, Tuhan Kasihanilah Kami")` yields
`("NKB", 24, "Tuhan Kasihanilah Kami")`, with the code uppercased and the
leading zero stripped from the number. -/
theorem split_title_comma :
    split_title "NKB 024, Tuhan Kasihanilah Kami" =
      (some "NKB", some 24, some "Tuhan Kasihanilah Kami") := by decide

/-! ## Lyrics-page parser

`parse_alkitab_page` / `parse_alkitab_lirik_blocks` / `_text_or_none` from
`kjpkjnkb.py` lines 214-255 (`get_nkb_24.py` lines 167-205 is identical up to
warning texts elsewhere).  The parsed HTML document (`BeautifulSoup`'s output)
is modelled as a tree of element and text nodes; CSS selection (`select`,
`select_one`) walks the descendants in document order. -/

inductive Node where
  | elem (tag : String) (classes : List String) (children : List Node)
  | text (s : List Char)

mutual

/-- All descendants of a node (excluding the node itself), pre-order. -/
def node_descs : Node → List Node
  | .text _ => []
  | .elem _ _ children => forest_descs children

/-- Each node of the forest followed by its descendants, in document order. -/
def forest_descs : List Node → List Node
  | [] => []
  | n :: rest => n :: (node_descs n ++ forest_descs rest)

end

mutual

/-- The text-node contents of a subtree, in document order (the node's own
content for a text node). -/
def node_texts : Node → List (List Char)
  | .text s => [s]
  | .elem _ _ children => forest_texts children

def forest_texts : List Node → List (List Char)
  | [] => []
  | n :: rest => node_texts n ++ forest_texts rest

end

/-- CSS selector `tag.cls`. -/
def matchesTagClass (tag cls : String) (n : Node) : Bool :=
  match n with
  | .elem t cs _ => t == tag && cs.contains cls
  | .text _ => false

/-- CSS selector `.cls`. -/
def matchesClass (cls : String) (n : Node) : Bool :=
  match n with
  | .elem _ cs _ => cs.contains cls
  | .text _ => false

/-- `element.select(selector)`: all matching descendants in document order. -/
def select (p : Node → Bool) (n : Node) : List Node :=
  (node_descs n).filter p

/-- `element.select_one(selector)`: the first matching descendant. -/
def select_one (p : Node → Bool) (n : Node) : Option Node :=
  (select p n).head?

/-- `element.get_text(separator=sep, strip=True)`: every text fragment is
stripped, empty fragments are dropped, the rest are joined with `sep`. -/
def joinSep (sep : List Char) : List (List Char) → List Char
  | [] => []
  | [l] => l
  | l :: ls => l ++ sep ++ joinSep sep ls

def get_text_strip (sep : List Char) (n : Node) : List Char :=
  joinSep sep (((node_texts n).map pystrip).filter (fun m => m ≠ []))

/-- `_text_or_none(parent, selector)` (`kjpkjnkb.py` lines 214-216). -/
def _text_or_none (p : Node → Bool) (parent : Node) : Option (List Char) :=
  match select_one p parent with
  | some el => some (normalize_str (get_text_strip " ".data el))
  | none => none

/-- `re.search(r"(\d+)\s*$", r)`: a trailing digit run, allowing trailing
whitespace. -/
def search_trailing_digits (r : List Char) : Option (List Char) :=
  let r' := r.rdropWhile isPySpace
  let ds := (r'.reverse.takeWhile isDigitChar).reverse
  if ds = [] then none else some ds

/-- `re.search(r"\d+", s)`: the first maximal digit run. -/
def search_digits : List Char → Option (List Char)
  | [] => none
  | c :: rest =>
    if isDigitChar c then some (c :: rest.takeWhile isDigitChar)
    else search_digits rest

/-- One element of a lyric block's `parts` list: the dict
`{"type": ..., "no": ..., "text": ...}`. -/
structure LirikPart where
  ptype : String
  no : Option (List Char)
  text : Option (List Char)
deriving DecidableEq

/-- One lyric grouping: the dict `{"lirik_no": ..., "parts": [...]}`. -/
structure LirikBlock where
  lirik_no : Option (List Char)
  parts : List LirikPart
deriving DecidableEq

/-- `parse_alkitab_lirik_blocks(lirik_div)` (`kjpkjnkb.py` lines 218-247). -/
def parse_alkitab_lirik_blocks (lirik_div : Node) : LirikBlock :=
  let lirik_no_raw := _text_or_none (matchesTagClass "div" "lirik_no") lirik_div
  let lirik_no : Option (List Char) :=
    match lirik_no_raw with
    | none => none
    | some [] => none
    | some raw =>
      match search_trailing_digits raw with
      | some d => some d
      | none => some raw
  let parts := (select (matchesTagClass "div" "bait") lirik_div).map (fun b =>
    let classes : List String :=
      match b with
      | .elem _ cs _ => cs
      | .text _ => []
    let lines := (((select (matchesClass "baris") b).map
      (fun x => normalize_str (get_text_strip " ".data x))).filter (fun m => m ≠ []))
    let text : Option (List Char) :=
      if lines = [] then none else some (joinSep "\n".data lines)
    if classes.contains "reff" then
      { ptype := "reff", no := none, text := text }
    else
      let no_raw := _text_or_none (matchesClass "bait-no") b
      let no : Option (List Char) :=
        match no_raw with
        | none => none
        | some [] => none
        | some raw =>
          match search_digits raw with
          | some d => some d
          | none => some raw
      { ptype := "bait", no := no, text := text })
  { lirik_no := lirik_no, parts := parts }

/-- `parse_alkitab_page(html)` (`kjpkjnkb.py` lines 249-255): absent when the
`div.lagu` container is missing, otherwise one block per `div.lirik`. -/
def parse_alkitab_page (dom : Node) : Option (List LirikBlock) :=
  match select_one (matchesTagClass "div" "lagu") dom with
  | none => none
  | some lagu =>
    some ((select (matchesTagClass "div" "lirik") lagu).map parse_alkitab_lirik_blocks)

/-! ## Claim C4 -/

/-- C4: the lyrics-page parser returns absent exactly when the `div.lagu`
song container is missing, and returns the empty sequence (not absent) when
the container is present but holds zero `div.lirik` groupings. -/
theorem parse_lyrics_absent_vs_empty :
    (∀ dom : Node, parse_alkitab_page dom = none ↔
      select_one (matchesTagClass "div" "lagu") dom = none)
    ∧ (∀ dom lagu : Node, select_one (matchesTagClass "div" "lagu") dom = some lagu →
        select (matchesTagClass "div" "lirik") lagu = [] →
        parse_alkitab_page dom = some []) := by
  constructor
  · intro dom
    rw [parse_alkitab_page]
    cases h : select_one (matchesTagClass "div" "lagu") dom <;> simp
  · intro dom lagu h hsel
    rw [parse_alkitab_page, h]
    simp [hsel]

/-- Witness for C4 on a page whose container exists but is empty. -/
theorem parse_lyrics_absent_vs_empty_witness :
    parse_alkitab_page (Node.elem "html" [] [Node.elem "div" ["lagu"] []]) = some [] :=
  parse_lyrics_absent_vs_empty.2 _ (Node.elem "div" ["lagu"] [])
    (by simp [select_one, select, node_descs, forest_descs, matchesTagClass])
    (by simp [select, node_descs, forest_descs])

/-! ## Fallback resolver

`fetch_lyrics_from_alkitab` from `kjpkjnkb.py` lines 263-322.  The network is
an oracle mapping a URL to either a fetched page or a transport error
(`fetch_html` = `session.get` + `raise_for_status`): an HTTP-status error
(`requests.HTTPError`, carrying `e.response.status_code`, or `none` when
`e.response` is `None`) or any other requests transport exception with its
message.  A fetched page carries both its raw text (for the
`"no such song"` marker test) and its parsed DOM.  Exceptions inside the two
`try` blocks are modelled with `Except`, the accumulated local `warns` list
travelling with the raised error. -/

structure Page where
  text : List Char
  dom : Node

inductive TransportErr where
  | httpError (code : Option Nat)
  | connError (msg : String)

inductive PyErr where
  | transport (e : TransportErr)
  | valueError (msg : String)

def Oracle := String → Except TransportErr Page

/-- `str(code)` where `code = e.response.status_code if e.response is not
None else "?"`. -/
def codeStr : Option Nat → String
  | some n => toString n
  | none => "?"

/-- `str(e)` for the modelled exceptions (for an `HTTPError` it is never
consulted: the first `except` clause catches it before the message test). -/
def pyErrStr : PyErr → String
  | .transport (.httpError code) => "HTTP " ++ codeStr code
  | .transport (.connError msg) => msg
  | .valueError msg => msg

/-- `needle in hay` on character lists. -/
def containsSub (needle : List Char) : List Char → Bool
  | [] => needle.isEmpty
  | c :: rest => needle.isPrefixOf (c :: rest) || containsSub needle rest

/-- `"no such song" in s.lower()`. -/
def contains_no_such_song (l : List Char) : Bool :=
  containsSub "no such song".data (l.map asciiLower)

/-- `page_says_no_such_song(html)` (`kjpkjnkb.py` lines 260-261). -/
def page_says_no_such_song (p : Page) : Bool :=
  contains_no_such_song p.text

/-- `build_alkitab_url(buku, no_lagu)` (`kjpkjnkb.py` lines 257-258). -/
def build_alkitab_url (buku : String) (no_lagu : Nat) : String :=
  "https://alkitab.app/" ++ (⟨buku.data.map asciiUpper⟩ : String) ++ "/" ++ toString no_lagu

/-- Python truthiness of `not lirik_list` for `Optional[List[...]]`. -/
def no_blocks : Option (List LirikBlock) → Bool
  | none => true
  | some [] => true
  | some (_ :: _) => false

/-- `all((not blk.get("parts") for blk in lirik_list))`. -/
def all_parts_empty (l : List LirikBlock) : Bool :=
  l.all (fun b => b.parts.isEmpty)

/-- The first `try` block (base URL), `kjpkjnkb.py` lines 272-284.  An
`.error` carries the exception together with the warnings appended before the
raise. -/
def base_attempt (oracle : Oracle) (url_base : String) :
    Except (PyErr × List String) (Option (List LirikBlock) × String × List String) :=
  match oracle url_base with
  | .error e => .error (.transport e, [])
  | .ok page =>
    if page_says_no_such_song page then
      .error (.valueError "no such song (base)",
        ["alkitab.app responded \x27no such song\x27 (base); retry with \x27A\x27 suffix."])
    else
      match parse_alkitab_page page.dom with
      | none => .ok (none, url_base, ["no .lagu/.lirik found at alkitab.app (base)"])
      | some [] => .ok (some [], url_base, ["no .lagu/.lirik found at alkitab.app (base)"])
      | some (b :: bs) =>
        .ok (some (b :: bs), url_base,
          if all_parts_empty (b :: bs) then
            ["no parts (bait/reff) found at alkitab.app (base)"]
          else [])

/-- The second `try` block (`A`-suffixed URL), `kjpkjnkb.py` lines 303-315;
its contribution to the warnings list is appended by the caller. -/
def a_attempt (oracle : Oracle) (url_a : String) :
    Except (PyErr × List String) (Option (List LirikBlock) × String × List String) :=
  match oracle url_a with
  | .error e => .error (.transport e, [])
  | .ok page =>
    if page_says_no_such_song page then
      .ok (none, url_a, ["alkitab.app responded \x27no such song\x27 (A variant)."])
    else
      match parse_alkitab_page page.dom with
      | none =>
        .ok (none, url_a,
          ["no .lagu/.lirik found at alkitab.app (A variant).",
           "used \x27A\x27 suffix fallback."])
      | some [] =>
        .ok (some [], url_a,
          ["no .lagu/.lirik found at alkitab.app (A variant).",
           "used \x27A\x27 suffix fallback."])
      | some (b :: bs) =>
        .ok (some (b :: bs), url_a,
          (if all_parts_empty (b :: bs) then
            ["no parts (bait/reff) found at alkitab.app (A variant)."]
          else []) ++ ["used \x27A\x27 suffix fallback."])

/-- The `except requests.HTTPError` / `except Exception` chain after the base
attempt (`kjpkjnkb.py` lines 285-299); an `.error` result would mean the
exception escaped both clauses and is re-raised — the catch-all models
`except Exception`, which every modelled error is an instance of, so no
branch produces `.error`. -/
def handle_base_exc (e : PyErr) (warns : List String) : Except PyErr (List String) :=
  match e with
  | .transport (.httpError code) =>
    if codeStr code = "404" then
      .ok (warns ++ ["HTTP 404 at alkitab.app (base); retry with \x27A\x27 suffix."])
    else
      .ok (warns ++ ["alkitab.app fetch failed (base): HTTP " ++ codeStr code])
  | e =>
    if contains_no_such_song (pyErrStr e).data then .ok warns
    else .ok (warns ++ ["alkitab.app parse error (base): " ++ pyErrStr e])

/-- The `except` chain after the `A` attempt (`kjpkjnkb.py` lines 316-320),
followed by the final `return None, url_a, warns`. -/
def handle_a_exc (e : PyErr) (warns : List String) : List String :=
  match e with
  | .transport (.httpError code) =>
    warns ++ ["alkitab.app fetch failed (A variant): HTTP " ++ codeStr code]
  | e => warns ++ ["alkitab.app parse error (A variant): " ++ pyErrStr e]

/-- `fetch_lyrics_from_alkitab(session, buku, no_lagu)` (`kjpkjnkb.py`
lines 263-322). -/
def fetch_lyrics_from_alkitab (oracle : Oracle) (buku : String) (no_lagu : Nat) :
    Except PyErr (Option (List LirikBlock) × String × List String) :=
  let url_base := build_alkitab_url buku no_lagu
  match base_attempt oracle url_base with
  | .ok r => .ok r
  | .error (e, warns) =>
    match handle_base_exc e warns with
    | .error e' => .error e'
    | .ok warns' =>
      let url_a := url_base ++ "A"
      match a_attempt oracle url_a with
      | .ok (res, u, ws) => .ok (res, u, warns' ++ ws)
      | .error (e2, ws2) => .ok (none, url_a, handle_a_exc e2 (warns' ++ ws2))

theorem handle_base_exc_ok (e : PyErr) (warns : List String) :
    ∃ ws', handle_base_exc e warns = .ok ws' := by
  cases e with
  | transport te =>
    cases te with
    | httpError code =>
      simp only [handle_base_exc]
      split_ifs <;> exact ⟨_, rfl⟩
    | connError msg =>
      simp only [handle_base_exc]
      split_ifs <;> exact ⟨_, rfl⟩
  | valueError msg =>
    simp only [handle_base_exc]
    split_ifs <;> exact ⟨_, rfl⟩

theorem handle_a_exc_ne_nil (e : PyErr) (warns : List String) :
    handle_a_exc e warns ≠ [] := by
  cases e with
  | transport te => cases te <;> simp [handle_a_exc]
  | valueError msg => simp [handle_a_exc]

theorem base_attempt_none_warns {oracle : Oracle} {u : String}
    {res : Option (List LirikBlock)} {u' : String} {ws : List String}
    (h : base_attempt oracle u = .ok (res, u', ws)) (hres : res = none) :
    ws ≠ [] := by
  subst hres
  unfold base_attempt at h
  split at h
  · exact absurd h (by simp)
  · split at h
    · exact absurd h (by simp)
    · split at h
      · simp only [Except.ok.injEq, Prod.mk.injEq] at h
        rw [← h.2.2]
        simp
      · simp only [Except.ok.injEq, Prod.mk.injEq] at h
        exact absurd h.1 (by simp)
      · simp only [Except.ok.injEq, Prod.mk.injEq] at h
        exact absurd h.1 (by simp)

theorem a_attempt_ok_warns {oracle : Oracle} {u : String}
    {res : Option (List LirikBlock)} {u' : String} {ws : List String}
    (h : a_attempt oracle u = .ok (res, u', ws)) : ws ≠ [] := by
  unfold a_attempt at h
  split at h
  · exact absurd h (by simp)
  · split at h
    · simp only [Except.ok.injEq, Prod.mk.injEq] at h
      rw [← h.2.2]
      simp
    · split at h
      · simp only [Except.ok.injEq, Prod.mk.injEq] at h
        rw [← h.2.2]
        simp
      · simp only [Except.ok.injEq, Prod.mk.injEq] at h
        rw [← h.2.2]
        simp
      · simp only [Except.ok.injEq, Prod.mk.injEq] at h
        rw [← h.2.2]
        intro hc
        exact absurd (List.append_eq_nil.mp hc).2 (by simp)

/-! ## Claim C9 -/

/-- C9: whenever the fallback resolver returns absent lyric blocks, the
returned warnings list is non-empty. -/
theorem fetch_none_implies_warning :
    ∀ (oracle : Oracle) (buku : String) (no_lagu : Nat)
      (res : Option (List LirikBlock)) (u : String) (ws : List String),
      fetch_lyrics_from_alkitab oracle buku no_lagu = .ok (res, u, ws) →
      res = none → ws ≠ [] := by
  intro oracle buku no_lagu res u ws h hres
  simp only [fetch_lyrics_from_alkitab] at h
  split at h
  · rename_i r heq
    simp only [Except.ok.injEq] at h
    rw [h] at heq
    exact base_attempt_none_warns heq hres
  · rename_i e warns heq
    split at h
    · exact absurd h (by simp)
    · rename_i ws' heq2
      split at h
      · rename_i res' u2 ws2 heq3
        simp only [Except.ok.injEq, Prod.mk.injEq] at h
        rw [← h.2.2]
        intro hc
        exact absurd (List.append_eq_nil.mp hc).2 (a_attempt_ok_warns heq3)
      · rename_i e2 ws2 heq3
        simp only [Except.ok.injEq, Prod.mk.injEq] at h
        rw [← h.2.2]
        exact handle_a_exc_ne_nil e2 _

/-- Witness oracle for C9: HTTP 404 at the base URL, HTTP 500 at the `A`
URL. -/
def oracle_all_fail : Oracle := fun _ => .error (.httpError (some 404))

theorem fetch_none_implies_warning_witness :
    ["HTTP 404 at alkitab.app (base); retry with \x27A\x27 suffix.",
     "alkitab.app fetch failed (A variant): HTTP 404"] ≠ ([] : List String) := by
  refine fetch_none_implies_warning oracle_all_fail "NKB" 24 none
    (build_alkitab_url "NKB" 24 ++ "A") _ ?_ rfl
  rfl

/-! ## Claim C6 -/

/-- C6: when the base fetch succeeds, the page does not carry the
"no such song" marker, and parsing yields absent or empty-only groupings,
the resolver records the corresponding warning and returns that parse result
with the base URL — the result is the same under any two oracles that agree
on the base URL, so the alternate URL is never consulted. -/
theorem fetch_base_no_fallthrough :
    ∀ (oracle oracle' : Oracle) (buku : String) (no_lagu : Nat) (page : Page),
      oracle (build_alkitab_url buku no_lagu) = .ok page →
      oracle' (build_alkitab_url buku no_lagu) = .ok page →
      page_says_no_such_song page = false →
      (no_blocks (parse_alkitab_page page.dom) = true ∨
        (∃ b bs, parse_alkitab_page page.dom = some (b :: bs) ∧
          all_parts_empty (b :: bs) = true)) →
      fetch_lyrics_from_alkitab oracle buku no_lagu =
        .ok (parse_alkitab_page page.dom, build_alkitab_url buku no_lagu,
          [if no_blocks (parse_alkitab_page page.dom) then
            "no .lagu/.lirik found at alkitab.app (base)"
          else "no parts (bait/reff) found at alkitab.app (base)"])
      ∧ fetch_lyrics_from_alkitab oracle buku no_lagu =
          fetch_lyrics_from_alkitab oracle' buku no_lagu := by
  intro oracle oracle' buku no_lagu page ho ho' hm hcond
  have hbase : ∀ o : Oracle, o (build_alkitab_url buku no_lagu) = .ok page →
      base_attempt o (build_alkitab_url buku no_lagu) =
        .ok (parse_alkitab_page page.dom, build_alkitab_url buku no_lagu,
          [if no_blocks (parse_alkitab_page page.dom) then
            "no .lagu/.lirik found at alkitab.app (base)"
          else "no parts (bait/reff) found at alkitab.app (base)"]) := by
    intro o hok
    unfold base_attempt
    rw [hok]
    simp only [hm]
    cases hp : parse_alkitab_page page.dom with
    | none => simp [no_blocks]
    | some l =>
      cases l with
      | nil => simp [no_blocks]
      | cons b bs =>
        rcases hcond with hc | ⟨b', bs', hpbs, hall⟩
        · rw [hp] at hc
          exact absurd hc (by simp [no_blocks])
        · rw [hp] at hpbs
          simp only [Option.some.injEq] at hpbs
          rw [← hpbs] at hall
          simp [no_blocks, hall]
  have heval : ∀ o : Oracle, o (build_alkitab_url buku no_lagu) = .ok page →
      fetch_lyrics_from_alkitab o buku no_lagu =
        .ok (parse_alkitab_page page.dom, build_alkitab_url buku no_lagu,
          [if no_blocks (parse_alkitab_page page.dom) then
            "no .lagu/.lirik found at alkitab.app (base)"
          else "no parts (bait/reff) found at alkitab.app (base)"]) := by
    intro o hok
    simp only [fetch_lyrics_from_alkitab]
    rw [hbase o hok]
  exact ⟨heval oracle ho, by rw [heval oracle ho, heval oracle' ho']⟩

/-- Witness oracle for C6: the base page fetches fine but carries no
`div.lagu` container; the `A` URL would transport-fail, yet is never
consulted. -/
def page_no_lagu : Page := { text := "x".data, dom := Node.elem "html" [] [] }

def oracle_c6 : Oracle := fun url =>
  if url = "https://alkitab.app/NKB/24" then .ok page_no_lagu
  else .error (.httpError (some 500))

def oracle_c6' : Oracle := fun _ => .ok page_no_lagu

theorem fetch_base_no_fallthrough_witness :
    fetch_lyrics_from_alkitab oracle_c6 "NKB" 24 =
      .ok (none, build_alkitab_url "NKB" 24,
        ["no .lagu/.lirik found at alkitab.app (base)"])
    ∧ fetch_lyrics_from_alkitab oracle_c6 "NKB" 24 =
        fetch_lyrics_from_alkitab oracle_c6' "NKB" 24 := by
  have hp : parse_alkitab_page page_no_lagu.dom = none := by
    simp [parse_alkitab_page, select_one, select, page_no_lagu,
      node_descs, forest_descs]
  have h := fetch_base_no_fallthrough oracle_c6 oracle_c6' "NKB" 24 page_no_lagu
    (by rfl) (by rfl) (by decide) (Or.inl (by rw [hp]; rfl))
  rw [hp] at h
  exact h

/-! ## Claim C7 -/

/-- C7: when the base page carries the "no such song" marker and the
`A`-suffixed URL fetch succeeds and parses into blocks with at least one
non-empty part, the resolver returns those blocks, the alternate URL, and
the warning list with the "no such song" note before the "used fallback"
note. -/
theorem fetch_fallback_warning_order :
    ∀ (oracle : Oracle) (buku : String) (no_lagu : Nat) (p pa : Page)
      (b : LirikBlock) (bs : List LirikBlock),
      oracle (build_alkitab_url buku no_lagu) = .ok p →
      page_says_no_such_song p = true →
      oracle (build_alkitab_url buku no_lagu ++ "A") = .ok pa →
      page_says_no_such_song pa = false →
      parse_alkitab_page pa.dom = some (b :: bs) →
      all_parts_empty (b :: bs) = false →
      fetch_lyrics_from_alkitab oracle buku no_lagu =
        .ok (some (b :: bs), build_alkitab_url buku no_lagu ++ "A",
          ["alkitab.app responded \x27no such song\x27 (base); retry with \x27A\x27 suffix.",
           "used \x27A\x27 suffix fallback."]) := by
  intro oracle buku no_lagu p pa b bs ho hm ho2 hm2 hp hall
  have hbase : base_attempt oracle (build_alkitab_url buku no_lagu) =
      .error (.valueError "no such song (base)",
        ["alkitab.app responded \x27no such song\x27 (base); retry with \x27A\x27 suffix."]) := by
    unfold base_attempt
    rw [ho]
    simp [hm]
  have hhandle : handle_base_exc (.valueError "no such song (base)")
      ["alkitab.app responded \x27no such song\x27 (base); retry with \x27A\x27 suffix."] =
      .ok ["alkitab.app responded \x27no such song\x27 (base); retry with \x27A\x27 suffix."] := by
    simp only [handle_base_exc, pyErrStr]
    rw [if_pos (by decide)]
  have ha : a_attempt oracle (build_alkitab_url buku no_lagu ++ "A") =
      .ok (some (b :: bs), build_alkitab_url buku no_lagu ++ "A",
        ["used \x27A\x27 suffix fallback."]) := by
    unfold a_attempt
    rw [ho2]
    simp [hm2, hp, hall]
  simp only [fetch_lyrics_from_alkitab]
  rw [hbase]
  simp [hhandle, ha]

/-- Witness oracle for C7: base page says "No such song", the `A` page has
one lyric grouping with one verse. -/
def page_marker : Page := { text := "No such song".data, dom := Node.elem "html" [] [] }

def block_good : LirikBlock :=
  { lirik_no := none,
    parts := [{ ptype := "bait", no := none, text := some "la".data }] }

def page_good : Page :=
  { text := "ok".data,
    dom := Node.elem "html" []
      [Node.elem "div" ["lagu"]
        [Node.elem "div" ["lirik"]
          [Node.elem "div" ["bait"]
            [Node.elem "p" ["baris"] [Node.text "la".data]]]]] }

def oracle_c7 : Oracle := fun url =>
  if url = "https://alkitab.app/NKB/24" then .ok page_marker else .ok page_good

theorem parse_page_good : parse_alkitab_page page_good.dom = some [block_good] := by
  simp [parse_alkitab_page, select_one, select, page_good, node_descs,
    forest_descs, matchesTagClass, matchesClass, parse_alkitab_lirik_blocks,
    _text_or_none, get_text_strip, node_texts, forest_texts, joinSep,
    block_good]
  decide

theorem fetch_fallback_warning_order_witness :
    fetch_lyrics_from_alkitab oracle_c7 "NKB" 24 =
      .ok (some [block_good], build_alkitab_url "NKB" 24 ++ "A",
        ["alkitab.app responded \x27no such song\x27 (base); retry with \x27A\x27 suffix.",
         "used \x27A\x27 suffix fallback."]) :=
  fetch_fallback_warning_order oracle_c7 "NKB" 24 page_marker page_good
    block_good [] (by rfl) (by decide) (by rfl) (by decide) parse_page_good (by decide)

/-! ## Claim C3 -/

/-- The warning the `A`-stage `except` clauses record for a transport
error. -/
def a_fail_warning : TransportErr → String
  | .httpError code => "alkitab.app fetch failed (A variant): HTTP " ++ codeStr code
  | .connError msg => "alkitab.app parse error (A variant): " ++ msg

theorem handle_a_exc_transport (e : TransportErr) (warns : List String) :
    handle_a_exc (.transport e) warns = warns ++ [a_fail_warning e] := by
  cases e <;> rfl

theorem mem_handle_a_exc {e : PyErr} {warns : List String} {a : String}
    (h : a ∈ warns) : a ∈ handle_a_exc e warns := by
  cases e with
  | transport te => cases te <;> simp [handle_a_exc, h]
  | valueError m => simp [handle_a_exc, h]

theorem fetch_after_base_error {oracle : Oracle} {buku : String}
    {no_lagu : Nat} {e : PyErr} {w1 : String}
    (hb : base_attempt oracle (build_alkitab_url buku no_lagu) = .error (e, []))
    (hh : handle_base_exc e [] = .ok [w1]) :
    ∃ r, fetch_lyrics_from_alkitab oracle buku no_lagu = .ok r ∧ w1 ∈ r.2.2 := by
  simp only [fetch_lyrics_from_alkitab]
  rw [hb]
  simp only [hh]
  split
  · exact ⟨_, rfl, by simp⟩
  · exact ⟨_, rfl, mem_handle_a_exc (by simp)⟩

theorem fetch_a_error {oracle : Oracle} {buku : String} {no_lagu : Nat}
    {e : PyErr} {warns : List String} {e2 : TransportErr}
    (hb : base_attempt oracle (build_alkitab_url buku no_lagu) = .error (e, warns))
    (ho2 : oracle (build_alkitab_url buku no_lagu ++ "A") = .error e2) :
    ∃ ws, fetch_lyrics_from_alkitab oracle buku no_lagu =
      .ok (none, build_alkitab_url buku no_lagu ++ "A", ws) ∧
      a_fail_warning e2 ∈ ws := by
  obtain ⟨ws', hw⟩ := handle_base_exc_ok e warns
  have ha2 : a_attempt oracle (build_alkitab_url buku no_lagu ++ "A") =
      .error (.transport e2, []) := by
    unfold a_attempt; rw [ho2]
  simp only [fetch_lyrics_from_alkitab]
  rw [hb]
  simp only [hw, ha2]
  refine ⟨_, rfl, ?_⟩
  rw [handle_a_exc_transport]
  simp

/-- C3 (amended): the resolver always returns a result tuple — no transport
or HTTP error ever propagates — and a fetch failure is converted into a
warning: always for an HTTP-status failure at the base URL; always at the
alternate URL whenever that URL is consulted at all, i.e. whenever the base
fetch transport-failed or the base page carried the "no such song" marker;
and for a non-HTTP transport failure at the base URL whenever its message
does not contain the "no such song" marker. -/
theorem fetch_lyrics_never_propagates :
    (∀ (oracle : Oracle) (buku : String) (no_lagu : Nat),
      ∃ r, fetch_lyrics_from_alkitab oracle buku no_lagu = .ok r)
    ∧ (∀ (oracle : Oracle) (buku : String) (no_lagu : Nat) (code : Option Nat),
        oracle (build_alkitab_url buku no_lagu) = .error (.httpError code) →
        ∃ r, fetch_lyrics_from_alkitab oracle buku no_lagu = .ok r ∧
          (("HTTP 404 at alkitab.app (base); retry with \x27A\x27 suffix." ∈ r.2.2) ∨
           (("alkitab.app fetch failed (base): HTTP " ++ codeStr code) ∈ r.2.2)))
    ∧ (∀ (oracle : Oracle) (buku : String) (no_lagu : Nat) (msg : String),
        oracle (build_alkitab_url buku no_lagu) = .error (.connError msg) →
        contains_no_such_song msg.data = false →
        ∃ r, fetch_lyrics_from_alkitab oracle buku no_lagu = .ok r ∧
          ("alkitab.app parse error (base): " ++ msg) ∈ r.2.2)
    ∧ (∀ (oracle : Oracle) (buku : String) (no_lagu : Nat) (e2 : TransportErr),
        oracle (build_alkitab_url buku no_lagu ++ "A") = .error e2 →
        ((∃ e, oracle (build_alkitab_url buku no_lagu) = .error e) ∨
         (∃ page, oracle (build_alkitab_url buku no_lagu) = .ok page ∧
            page_says_no_such_song page = true)) →
        ∃ ws, fetch_lyrics_from_alkitab oracle buku no_lagu =
          .ok (none, build_alkitab_url buku no_lagu ++ "A", ws) ∧
          a_fail_warning e2 ∈ ws) := by
  refine ⟨?_, ?_, ?_, ?_⟩
  · intro oracle buku no_lagu
    simp only [fetch_lyrics_from_alkitab]
    split
    · exact ⟨_, rfl⟩
    · rename_i e warns heq
      split
      · rename_i e' heq2
        obtain ⟨ws', hw⟩ := handle_base_exc_ok e warns
        rw [hw] at heq2
        exact absurd heq2 (by simp)
      · split
        · exact ⟨_, rfl⟩
        · exact ⟨_, rfl⟩
  · intro oracle buku no_lagu code ho
    have hb : base_attempt oracle (build_alkitab_url buku no_lagu) =
        .error (.transport (.httpError code), []) := by
      unfold base_attempt; rw [ho]
    by_cases h4 : codeStr code = "404"
    · have hh : handle_base_exc (.transport (.httpError code)) [] =
          .ok ["HTTP 404 at alkitab.app (base); retry with \x27A\x27 suffix."] := by
        simp only [handle_base_exc]
        rw [if_pos h4]
        simp
      obtain ⟨r, hr, hmem⟩ := fetch_after_base_error hb hh
      exact ⟨r, hr, Or.inl hmem⟩
    · have hh : handle_base_exc (.transport (.httpError code)) [] =
          .ok ["alkitab.app fetch failed (base): HTTP " ++ codeStr code] := by
        simp only [handle_base_exc]
        rw [if_neg h4]
        simp
      obtain ⟨r, hr, hmem⟩ := fetch_after_base_error hb hh
      exact ⟨r, hr, Or.inr hmem⟩
  · intro oracle buku no_lagu msg ho hmsg
    have hb : base_attempt oracle (build_alkitab_url buku no_lagu) =
        .error (.transport (.connError msg), []) := by
      unfold base_attempt; rw [ho]
    have hh : handle_base_exc (.transport (.connError msg)) [] =
        .ok ["alkitab.app parse error (base): " ++ msg] := by
      simp only [handle_base_exc, pyErrStr]
      rw [if_neg (by rw [hmsg]; simp)]
      simp
    obtain ⟨r, hr, hmem⟩ := fetch_after_base_error hb hh
    exact ⟨r, hr, hmem⟩
  · intro oracle buku no_lagu e2 ho2 hreach
    rcases hreach with ⟨e, ho⟩ | ⟨page, ho, hm⟩
    · have hb : base_attempt oracle (build_alkitab_url buku no_lagu) =
          .error (.transport e, []) := by
        unfold base_attempt; rw [ho]
      exact fetch_a_error hb ho2
    · have hb : base_attempt oracle (build_alkitab_url buku no_lagu) =
          .error (.valueError "no such song (base)",
            ["alkitab.app responded \x27no such song\x27 (base); retry with \x27A\x27 suffix."]) := by
        unfold base_attempt
        rw [ho]
        simp [hm]
      exact fetch_a_error hb ho2

/-- Witness oracle for the amended C3: base URL HTTP 404, `A` URL connection
failure. -/
def oracle_c3w : Oracle := fun url =>
  if url = "https://alkitab.app/NKB/24" then .error (.httpError (some 404))
  else .error (.connError "boom")

/-- Witness oracle for the amended C3's marker path: the base fetch succeeds
with a "no such song" page, the `A` URL connection-fails. -/
def oracle_c3m : Oracle := fun url =>
  if url = "https://alkitab.app/NKB/24" then .ok page_marker
  else .error (.connError "boom")

theorem fetch_lyrics_never_propagates_witness :
    (∃ r, fetch_lyrics_from_alkitab oracle_c3w "NKB" 24 = .ok r ∧
      (("HTTP 404 at alkitab.app (base); retry with \x27A\x27 suffix." ∈ r.2.2) ∨
       (("alkitab.app fetch failed (base): HTTP " ++ codeStr (some 404)) ∈ r.2.2)))
    ∧ (∃ ws, fetch_lyrics_from_alkitab oracle_c3w "NKB" 24 =
        .ok (none, build_alkitab_url "NKB" 24 ++ "A", ws) ∧
        a_fail_warning (.connError "boom") ∈ ws)
    ∧ (∃ ws, fetch_lyrics_from_alkitab oracle_c3m "NKB" 24 =
        .ok (none, build_alkitab_url "NKB" 24 ++ "A", ws) ∧
        a_fail_warning (.connError "boom") ∈ ws) :=
  ⟨fetch_lyrics_never_propagates.2.1 oracle_c3w "NKB" 24 (some 404) rfl,
   fetch_lyrics_never_propagates.2.2.2 oracle_c3w "NKB" 24 (.connError "boom")
     rfl (Or.inl ⟨.httpError (some 404), rfl⟩),
   fetch_lyrics_never_propagates.2.2.2 oracle_c3m "NKB" 24 (.connError "boom")
     rfl (Or.inr ⟨page_marker, rfl, by decide⟩)⟩

/-- Counterexample for C3 as stated: a non-HTTP transport failure at the base
URL whose message contains the "no such song" marker is swallowed silently —
the base fetch fails, yet the returned warning list is only the fallback
note, with no warning converted from that failure. -/
def oracle_c3 : Oracle := fun url =>
  if url = "https://alkitab.app/NKB/24" then .error (.connError "no such song")
  else .ok page_good

theorem fetch_silent_base_failure :
    oracle_c3 "https://alkitab.app/NKB/24" = .error (.connError "no such song")
    ∧ fetch_lyrics_from_alkitab oracle_c3 "NKB" 24 =
        .ok (some [block_good], build_alkitab_url "NKB" 24 ++ "A",
          ["used \x27A\x27 suffix fallback."]) := by
  refine ⟨rfl, ?_⟩
  have hb : base_attempt oracle_c3 (build_alkitab_url "NKB" 24) =
      .error (.transport (.connError "no such song"), []) := by rfl
  have hh : handle_base_exc (.transport (.connError "no such song")) [] =
      .ok [] := by rfl
  have ha : a_attempt oracle_c3 (build_alkitab_url "NKB" 24 ++ "A") =
      .ok (some [block_good], build_alkitab_url "NKB" 24 ++ "A",
        (if all_parts_empty [block_good] then
          ["no parts (bait/reff) found at alkitab.app (A variant)."]
        else []) ++ ["used \x27A\x27 suffix fallback."]) := by
    unfold a_attempt
    rw [show oracle_c3 (build_alkitab_url "NKB" 24 ++ "A") = .ok page_good from rfl]
    simp only [show page_says_no_such_song page_good = false from by decide,
      Bool.false_eq_true, if_false, parse_page_good]
  simp only [fetch_lyrics_from_alkitab]
  rw [hb]
  simp [hh, ha, all_parts_empty, block_good]

/-! ## Persistence layer

`SCHEMA_SQL` declares `UNIQUE (buku, no_lagu)` and `upsert_hymn`
(`kjpkjnkb.py` lines 114-132) runs `INSERT ... ON CONFLICT(buku, no_lagu) DO
UPDATE SET` every non-key column to the excluded row's value.  The table is a
row list; a row is the bound parameter dict, each value nullable as the
corresponding SQLite column is.  SQL equality never holds on NULL, so a
conflict arises only between rows whose key columns are both non-NULL and
equal. -/

structure DbRow where
  buku : Option String
  no_lagu : Option Nat
  judul_text : Option String
  info : Option String
  tune : Option String
  beat : Option String
  lirik_json : Option String
  source_url : Option String
  lyrics_source_url : Option String
  fetched_at : Option String
  warnings : Option String
deriving DecidableEq

/-- The `(buku, no_lagu)` key comparison of `ON CONFLICT(buku, no_lagu)`. -/
def same_key (q r : DbRow) : Bool :=
  match q.buku, r.buku, q.no_lagu, r.no_lagu with
  | some a, some b, some x, some y => a == b && x == y
  | _, _, _, _ => false

/-- The `DO UPDATE SET` list: every non-key column is overwritten with the
excluded row's value; the key columns (and `id`) stay. -/
def updated_row (q r : DbRow) : DbRow :=
  { buku := q.buku, no_lagu := q.no_lagu,
    judul_text := r.judul_text, info := r.info, tune := r.tune, beat := r.beat,
    lirik_json := r.lirik_json, source_url := r.source_url,
    lyrics_source_url := r.lyrics_source_url, fetched_at := r.fetched_at,
    warnings := r.warnings }

/-- `upsert_hymn(conn, row)`: insert, or on a key conflict update the
conflicting row(s) in place. -/
def upsert_hymn (tbl : List DbRow) (r : DbRow) : List DbRow :=
  if tbl.any (fun q => same_key q r) then
    tbl.map (fun q => if same_key q r then updated_row q r else q)
  else tbl ++ [r]

/-- `SELECT * FROM hymns WHERE buku = ? AND no_lagu = ?` (first row). -/
def lookup_hymn (tbl : List DbRow) (bk : String) (no : Nat) : Option DbRow :=
  tbl.find? (fun q => q.buku == some bk && q.no_lagu == some no)

theorem lookup_upsert (tbl : List DbRow) (r : DbRow) (bk : String) (no : Nat)
    (hb : r.buku = some bk) (hn : r.no_lagu = some no) :
    lookup_hymn (upsert_hymn tbl r) bk no = some r := by
  have hkey : ∀ q : DbRow, same_key q r = (q.buku == some bk && q.no_lagu == some no) := by
    intro q
    cases hqb : q.buku <;> cases hqn : q.no_lagu <;>
      simp [same_key, hb, hn, hqb, hqn]
  have hupd : ∀ q : DbRow, same_key q r = true → updated_row q r = r := by
    intro q hq
    rw [hkey q] at hq
    simp only [Bool.and_eq_true, beq_iff_eq] at hq
    obtain ⟨h1, h2⟩ := hq
    cases r with
    | mk b n jt inf tu be lj su lsu fa w =>
      simp only [updated_row]
      simp_all
  have hF : ∀ q : DbRow, same_key q r = true →
      (q.buku == some bk && q.no_lagu == some no) = true := by
    intro q hq; rwa [hkey q] at hq
  unfold upsert_hymn lookup_hymn
  by_cases hany : tbl.any (fun q => same_key q r) = true
  · rw [if_pos hany]
    induction tbl with
    | nil => simp at hany
    | cons q rest ih =>
      rw [List.map_cons]
      by_cases hq : same_key q r = true
      · rw [if_pos hq]
        rw [List.find?_cons_of_pos _ (by
          have h := hF q hq
          simp only [Bool.and_eq_true, beq_iff_eq] at h
          simp [updated_row, h.1, h.2])]
        rw [hupd q hq]
      · rw [if_neg hq]
        rw [List.find?_cons_of_neg _ (by
          rw [← hkey q]
          simp [hq])]
        apply ih
        simp only [List.any_cons, hq, Bool.false_or] at hany
        exact hany
  · rw [if_neg hany]
    simp only [List.any_eq_true, not_exists, not_and] at hany
    induction tbl with
    | nil =>
      simp only [List.nil_append]
      rw [List.find?_cons_of_pos _ (by simp [hb, hn])]
    | cons q rest ih =>
      have hq : ¬ same_key q r = true := by
        intro h
        exact absurd h (by simpa using hany q (List.mem_cons_self _ _))
      rw [List.cons_append]
      rw [List.find?_cons_of_neg _ (by rw [← hkey q]; simpa using hq)]
      exact ih (fun x hx => hany x (List.mem_cons_of_mem _ hx))

/-! ## Claim C1 -/

/-- C1: upserting a record and then a second record with the same
`(buku, no_lagu)` key leaves the store holding exactly the second record's
values in every field — a full replace, no field-level merge. -/
theorem upsert_replaces_fully :
    ∀ (tbl : List DbRow) (r1 r2 : DbRow) (bk : String) (no : Nat),
      r1.buku = some bk → r1.no_lagu = some no →
      r2.buku = some bk → r2.no_lagu = some no →
      lookup_hymn (upsert_hymn tbl r1) bk no = some r1 ∧
      lookup_hymn (upsert_hymn (upsert_hymn tbl r1) r2) bk no = some r2 := by
  intro tbl r1 r2 bk no hb1 hn1 hb2 hn2
  exact ⟨lookup_upsert tbl r1 bk no hb1 hn1,
    lookup_upsert (upsert_hymn tbl r1) r2 bk no hb2 hn2⟩

def row_first : DbRow :=
  { buku := some "NKB", no_lagu := some 24, judul_text := some "T1",
    info := some "i1", tune := none, beat := none,
    lirik_json := some "[\x7b\"lirik_no\": \"1\", \"parts\": []\x7d]",
    source_url := some "u1", lyrics_source_url := some "l1",
    fetched_at := some "t1Z", warnings := some "w1" }

def row_second : DbRow :=
  { buku := some "NKB", no_lagu := some 24, judul_text := some "T2",
    info := none, tune := some "do = g", beat := some "4 ketuk",
    lirik_json := some "[]",
    source_url := some "u2", lyrics_source_url := none,
    fetched_at := some "t2Z", warnings := none }

/-- Witness for C1: two concrete records with the same key and different
values in every other field (including the lyric blocks and warnings). -/
theorem upsert_replaces_fully_witness :
    lookup_hymn (upsert_hymn [] row_first) "NKB" 24 = some row_first ∧
    lookup_hymn (upsert_hymn (upsert_hymn [] row_first) row_second) "NKB" 24 =
      some row_second :=
  upsert_replaces_fully [] row_first row_second "NKB" 24 rfl rfl rfl rfl

/-! ## Row construction

`to_db_row` from `kjpkjnkb.py` lines 345-359 (the row dict built inline in
`get_nkb_24.py` `main`, lines 330-342, is the same expression).
`json.dumps(lirik_list or [], ensure_ascii=False)` is modelled by
`json_dumps_blocks`, CPython's serializer for this value shape: default
separators `", "` and `": "`, insertion-ordered keys, C escapes for
`"`, `\`, and control characters, other characters kept verbatim.
`datetime.utcnow().isoformat(timespec="seconds")` is the external clock,
passed in as `now`. -/

def hexDigit (n : Nat) : Char :=
  if n < 10 then Char.ofNat ('0'.toNat + n) else Char.ofNat ('a'.toNat + (n - 10))

def hex4 (n : Nat) : List Char :=
  [hexDigit (n / 4096 % 16), hexDigit (n / 256 % 16), hexDigit (n / 16 % 16),
   hexDigit (n % 16)]

def jsonEscapeChar (c : Char) : List Char :=
  if c = '"' then ['\\', '"']
  else if c = '\\' then ['\\', '\\']
  else if c = '\n' then ['\\', 'n']
  else if c = '\r' then ['\\', 'r']
  else if c = '\t' then ['\\', 't']
  else if c = '\x08' then ['\\', 'b']
  else if c = '\x0c' then ['\\', 'f']
  else if c.toNat < 32 then '\\' :: 'u' :: hex4 c.toNat
  else [c]

def jsonStr (s : List Char) : List Char :=
  '"' :: (s.map jsonEscapeChar).flatten ++ ['"']

def jsonOptStr : Option (List Char) → List Char
  | none => "null".data
  | some s => jsonStr s

def jsonPart (p : LirikPart) : List Char :=
  "\x7b\"type\": ".data ++ jsonStr p.ptype.data ++ ", \"no\": ".data ++
    jsonOptStr p.no ++ ", \"text\": ".data ++ jsonOptStr p.text ++ "\x7d".data

def jsonListOf {α : Type} (f : α → List Char) (l : List α) : List Char :=
  '[' :: (joinSep ", ".data (l.map f) ++ [']'])

def jsonBlock (b : LirikBlock) : List Char :=
  "\x7b\"lirik_no\": ".data ++ jsonOptStr b.lirik_no ++ ", \"parts\": ".data ++
    jsonListOf jsonPart b.parts ++ "\x7d".data

/-- `json.dumps(blocks, ensure_ascii=False)`. -/
def json_dumps_blocks (l : List LirikBlock) : List Char :=
  jsonListOf jsonBlock l

example : json_dumps_blocks [] = "[]".data := by decide

example : json_dumps_blocks [block_good] =
    "[\x7b\"lirik_no\": null, \"parts\": [\x7b\"type\": \"bait\", \"no\": null, \"text\": \"la\"\x7d]\x7d]".data := by
  decide

example :
    json_dumps_blocks
      [{ lirik_no := some "2".data,
         parts := [{ ptype := "reff", no := none,
                     text := some "a\"b\\c\nd".data }] }] =
    "[\x7b\"lirik_no\": \"2\", \"parts\": [\x7b\"type\": \"reff\", \"no\": null, \"text\": \"a\\\"b\\\\c\\nd\"\x7d]\x7d]".data := by
  decide

/-- The metadata dict fields `to_db_row` reads. -/
structure HymnMeta where
  buku : Option String
  no_lagu : Option Nat
  judul_text : Option String
  info : Option String
  tune : Option String
  beat : Option String
deriving DecidableEq

/-- `to_db_row(meta, source_url, lirik_list, lyrics_source_url,
extra_warnings)` (`kjpkjnkb.py` lines 345-359). -/
def to_db_row (meta : HymnMeta) (source_url : String)
    (lirik_list : Option (List LirikBlock)) (lyrics_source_url : Option String)
    (extra_warnings : List String) (now : String) : DbRow :=
  { buku := meta.buku,
    no_lagu := meta.no_lagu,
    judul_text := meta.judul_text,
    info := meta.info,
    tune := meta.tune,
    beat := meta.beat,
    lirik_json := some ⟨json_dumps_blocks (lirik_list.getD [])⟩,
    source_url := some source_url,
    lyrics_source_url := lyrics_source_url,
    fetched_at := some (now ++ "Z"),
    warnings := if extra_warnings = [] then none
                else some ⟨joinSep "; ".data (extra_warnings.map String.data)⟩ }

/-! ## Claim C10 -/

/-- C10: every persisted row stores the lyric blocks as a JSON array string,
never as NULL: an absent lyric resolution is serialized as the empty JSON
array `"[]"`, and any block list serializes to a bracketed array string. -/
theorem to_db_row_lirik_json :
    (∀ (meta : HymnMeta) (source_url : String) (lyrics_source_url : Option String)
       (warns : List String) (now : String),
      (to_db_row meta source_url none lyrics_source_url warns now).lirik_json =
        some "[]")
    ∧ (∀ (meta : HymnMeta) (source_url : String) (l : List LirikBlock)
         (lyrics_source_url : Option String) (warns : List String) (now : String),
        (to_db_row meta source_url (some l) lyrics_source_url warns now).lirik_json =
          some ⟨json_dumps_blocks l⟩)
    ∧ (∀ l : List LirikBlock, ∃ mid : List Char,
        json_dumps_blocks l = '[' :: (mid ++ [']'])) := by
  refine ⟨?_, ?_, ?_⟩
  · intros; rfl
  · intros; rfl
  · intro l
    exact ⟨joinSep ", ".data (l.map jsonBlock), rfl⟩

end Kidung
